import Mathlib

/-!
Formal model of the py-mpspline package (mass-preserving equal-area quadratic
smoothing splines for soil profile depth harmonization).

The definitions below are a shallow embedding of `src/mpspline/algorithm.py`
(functions `_get_spline_matrices`, `_estimate_spline_parameters`,
`_fit_spline_predictions`, `_calculate_rmse`, `_validate_and_prepare_data`,
`spline_one`) and of `_standardize_horizons` from `src/mpspline/spline.py`.

Modelling conventions:
* IEEE-754 doubles are modelled by `ℚ`; a float NaN (missing value) is
  modelled by `none : Option ℚ`.  All comparisons with NaN are false in
  Python/numpy, which the `Option`-aware helpers below reproduce.
* `np.searchsorted(a, v, side)` on a sorted array returns the insertion
  index, which equals the number of entries `≤ v` (side `right`) resp.
  `< v` (side `left`); the code only ever calls it on validated (sorted)
  depth arrays, and the embedding uses these counts directly.
* `scipy.linalg.inv` / `scipy.linalg.solve` on an invertible matrix are
  the exact inverse / exact solution, modelled by `det⁻¹ • adjugate`
  (equal to `A⁻¹` whenever `det A ≠ 0`).  The source falls back to a
  pseudo-inverse / least-squares solve when the matrix is singular; that
  degraded branch is not modelled (every claim below that touches the
  linear algebra assumes or exhibits an invertible matrix).
* `_calculate_rmse` returns `sqrt(mean(residual²))` and that value divided
  by the interquartile range.  `ℚ` has no square root, so the embedding
  carries the squared quantities (`rmseSq = rmse²`, `rmseIqrSq =
  (rmse/iqr)²`).  The square root is strictly monotone on nonnegatives and
  maps NaN to NaN, so definedness (NaN-ness) and zero-ness of the real
  result coincide with those of the modelled result.
* Python `int(x)` on the nonnegative depths produced by validation is
  `⌊x⌋`, modelled by `pyIntNat`.
-/

namespace Mpspline

open Matrix

/-- A raw horizon row handed to `spline_one`: upper depth (`UD` column),
lower depth (`LD` column) and the value of the chosen variable.  `none`
models a float NaN / missing entry. -/
structure Row where
  ud : Option ℚ
  ld : Option ℚ
  val : Option ℚ
deriving DecidableEq

/-- A validated row: all three fields defined (non-NaN). -/
structure PRow where
  ud : ℚ
  ld : ℚ
  val : ℚ
deriving DecidableEq

/-- Python comparison `0 <= x` where `x` may be NaN (NaN compares false). -/
def optNonneg : Option ℚ → Bool
  | some q => decide (0 ≤ q)
  | none => false

/-- Python comparison `x < y` where either side may be NaN (false on NaN). -/
def optLtOpt : Option ℚ → Option ℚ → Bool
  | some a, some b => decide (a < b)
  | _, _ => false

/-- Replace a missing upper depth of the first row with 0
(`_validate_and_prepare_data`, first fill). -/
def fillFirstTop : List Row → List Row
  | [] => []
  | r :: rest => if r.ud.isNone then { r with ud := some 0 } :: rest else r :: rest

/-- Maximum of the defined upper depths (`s[depth_col_top].max()`, which
skips NaN and is NaN when no value is defined). -/
def maxDefinedUd (l : List Row) : Option ℚ :=
  (l.filterMap (fun r => r.ud)).max?

/-- Replace a missing lower depth of the last row with `max(UD) + 10`
(`_validate_and_prepare_data`, second fill).  When every upper depth is
missing the pandas maximum is NaN and the filled value stays NaN. -/
def fillLastBottom (l : List Row) : List Row :=
  match l.reverse with
  | [] => []
  | r :: rest =>
    (if r.ld.isNone then { r with ld := (maxDefinedUd l).map (· + 10) } :: rest
     else r :: rest).reverse

/-- Conversion of fully defined rows to `PRow` (after the validation
filters every surviving row has all three fields defined, so this drops
nothing on the paths the source can reach). -/
def toPRows (l : List Row) : List PRow :=
  l.filterMap fun r =>
    match r.ud, r.ld, r.val with
    | some a, some b, some v => some ⟨a, b, v⟩
    | _, _, _ => none

/-- Adjacent overlap test: `s[LD].iloc[i] > s[UD].iloc[i+1]` for some `i`
(`_validate_and_prepare_data`, final loop). -/
def hasOverlap : List PRow → Bool
  | a :: b :: t => decide (b.ud < a.ld) || hasOverlap (b :: t)
  | _ => false

/-- Embedding of `_validate_and_prepare_data`: drop rows with a missing
target value, reject profiles with fewer than two remaining rows, fill a
missing first upper depth with 0 and a missing last lower depth with
`max(UD) + 10`, drop rows with negative, NaN or inverted depths, sort by
`(UD, LD)` and reject on overlapping ranges.  `none` models the Python
`None` return. -/
def validateAndPrepareData (rows : List Row) : Option (List PRow) :=
  if rows.all (fun r => r.val.isNone) then none
  else
    let s1 := rows.filter (fun r => r.val.isSome)
    if s1.length < 2 then none
    else
      let s2 := fillLastBottom (fillFirstTop s1)
      let s3 := s2.filter (fun r => optNonneg r.ud && optNonneg r.ld)
      let s4 := s3.filter (fun r => optLtOpt r.ud r.ld)
      let s5 := s4.filter (fun r => optLtOpt r.ud r.ld)
      let s6 := (toPRows s5).insertionSort
        (fun a b => a.ud < b.ud ∨ (a.ud = b.ud ∧ a.ld ≤ b.ld))
      if hasOverlap s6 then none else some s6

/-- Embedding of column `i` of a `Fin (n-1)`-indexed object into `Fin n`
at the same position. -/
def castL {n : ℕ} (i : Fin (n - 1)) : Fin n :=
  ⟨i.1, by have := i.isLt; omega⟩

/-- Embedding of a `Fin (n-1)` index into `Fin n` at the next position. -/
def castR {n : ℕ} (i : Fin (n - 1)) : Fin n :=
  ⟨i.1 + 1, by have := i.isLt; omega⟩

/-- Interval thicknesses `th = db - dt`. -/
def thF {n : ℕ} (top bottom : Fin n → ℚ) : Fin n → ℚ :=
  fun i => bottom i - top i

/-- Inter-interval gaps `gp[i] = dt[i+1] - db[i]`. -/
def gpF {n : ℕ} (top bottom : Fin n → ℚ) : Fin (n - 1) → ℚ :=
  fun i => top (castR i) - bottom (castL i)

/-- The symmetric tridiagonal matrix `R` of `_get_spline_matrices`:
diagonal `2*(th[i] + th[i+1]) + 6*gp[i]`, entries `R[i,i+1] = R[i+1,i] =
th[i+1]`, zero elsewhere. -/
def buildR {n : ℕ} (top bottom : Fin n → ℚ) :
    Matrix (Fin (n - 1)) (Fin (n - 1)) ℚ :=
  Matrix.of fun i j =>
    if i = j then 2 * (thF top bottom (castL i) + thF top bottom (castR i)) + 6 * gpF top bottom i
    else if j.1 = i.1 + 1 then thF top bottom (castL j)
    else if i.1 = j.1 + 1 then thF top bottom (castL i)
    else 0

/-- The forward-difference matrix `Q` of `_get_spline_matrices`:
`Q[i,i] = -1`, `Q[i,i+1] = 1`, zero elsewhere. -/
def buildQ (n : ℕ) : Matrix (Fin (n - 1)) (Fin n) ℚ :=
  Matrix.of fun i j => if j.1 = i.1 then -1 else if j.1 = i.1 + 1 then 1 else 0

/-- Model of `scipy.linalg.inv`: for `det A ≠ 0` this is the exact inverse
`A⁻¹`.  The singular fallback of the source (`np.linalg.pinv`) is not
modelled. -/
def matInv {m : ℕ} (A : Matrix (Fin m) (Fin m) ℚ) : Matrix (Fin m) (Fin m) ℚ :=
  A.det⁻¹ • A.adjugate

/-- The system matrix `Z = I + 6*n*lam * Qᵀ R⁻¹ Q` of
`_get_spline_matrices`. -/
def buildZ {n : ℕ} (top bottom : Fin n → ℚ) (lam : ℚ) :
    Matrix (Fin n) (Fin n) ℚ :=
  1 + ((6 : ℚ) * n * lam) • ((buildQ n)ᵀ * matInv (buildR top bottom) * buildQ n)

/-- Model of `scipy.linalg.solve`: for invertible `A` the exact solution
of `A x = v`.  The singular fallback (`np.linalg.lstsq`) is not
modelled. -/
def linSolve {m : ℕ} (A : Matrix (Fin m) (Fin m) ℚ) (v : Fin m → ℚ) : Fin m → ℚ :=
  (matInv A).mulVec v

/-- The per-call products of `_estimate_spline_parameters`. -/
structure SplineParams (n : ℕ) where
  sbar : Fin n → ℚ
  b0 : Fin n → ℚ
  b1 : Fin n → ℚ
  gamma : Fin n → ℚ
  alfa : Fin n → ℚ

/-- Embedding of `_estimate_spline_parameters`: solve `Z sbar = values`,
derive `b = 6 R⁻¹ Q sbar`, extend to `b0 = [0, b]` and `b1 = [b, 0]`, and
compute the quadratic coefficients `gamma` and `alfa`. -/
def estimateSplineParameters {n : ℕ} (top bottom values : Fin n → ℚ) (lam : ℚ) :
    SplineParams n :=
  let sbar := linSolve (buildZ top bottom lam) values
  let b : Fin (n - 1) → ℚ :=
    fun i => 6 * ((matInv (buildR top bottom)).mulVec ((buildQ n).mulVec sbar)) i
  let b0 : Fin n → ℚ :=
    fun i => if h : i.1 = 0 then 0 else b ⟨i.1 - 1, by have := i.isLt; omega⟩
  let b1 : Fin n → ℚ :=
    fun i => if h : i.1 < n - 1 then b ⟨i.1, h⟩ else 0
  let gamma : Fin n → ℚ := fun i => (b1 i - b0 i) / (2 * thF top bottom i)
  let alfa : Fin n → ℚ :=
    fun i => sbar i - b0 i * thF top bottom i / 2 - gamma i * thF top bottom i ^ 2 / 3
  ⟨sbar, b0, b1, gamma, alfa⟩

/-- Number of entries of `a` that are `≤ v`.  For a sorted array this is
exactly `np.searchsorted(a, v, side="right")`. -/
def countLE {n : ℕ} (a : Fin n → ℚ) (v : ℚ) : ℕ :=
  (Finset.univ.filter fun i => a i ≤ v).card

/-- Number of entries of `a` that are `< v`.  For a sorted array this is
exactly `np.searchsorted(a, v, side="left")`. -/
def countLT {n : ℕ} (a : Fin n → ℚ) (v : ℚ) : ℕ :=
  (Finset.univ.filter fun i => a i < v).card

/-- Bound used to index with `countLE a d - 1`. -/
def prevBound {n : ℕ} (a : Fin n → ℚ) (d : ℚ) (h : 1 ≤ countLE a d) :
    countLE a d - 1 < n := by
  have h2 := Finset.card_le_univ (Finset.univ.filter fun i : Fin n => a i ≤ d)
  simp only [Finset.card_univ, Fintype.card_fin] at h2
  have h3 : countLE a d ≤ n := h2
  omega

/-- Gap branch of `_fit_spline_predictions`: `prev_idx` is the rightmost
interval whose bottom is `≤ d`, `next_idx` the leftmost interval whose top
is `> d` (hence `searchsorted` left with no top `< d` beyond it); when
both exist the value is the linear continuation
`phi + b1[prev] * (d - db[prev])` with
`phi = alfa[next] - b1[prev] * (dt[next] - db[prev])`, otherwise NaN. -/
def gapValue {n : ℕ} (top bottom alfa b1 : Fin n → ℚ) (d : ℚ) : Option ℚ :=
  if h : 1 ≤ countLE bottom d ∧ countLT top d < n then
    let p : Fin n := ⟨countLE bottom d - 1, prevBound bottom d h.1⟩
    let q : Fin n := ⟨countLT top d, h.2⟩
    some (alfa q - b1 p * (top q - bottom p) + b1 p * (d - bottom p))
  else none

/-- Per-depth desugaring of the vectorized prediction step of
`_fit_spline_predictions` (before clipping): when `d` lies in measured
interval `h` (found through `searchsorted` on the tops followed by the
`d < db[h]` check) evaluate the quadratic, otherwise fall through to the
gap computation.  The index is valid exactly when `countLE top d ≥ 1`
(the upper bound `idx < n` of the source holds automatically). -/
def predictAt {n : ℕ} (top bottom alfa b0 b1 gamma : Fin n → ℚ) (d : ℚ) : Option ℚ :=
  if h : 1 ≤ countLE top d then
    let i : Fin n := ⟨countLE top d - 1, prevBound top d h⟩
    if d < bottom i then
      some (alfa i + b0 i * (d - top i) + gamma i * (d - top i) ^ 2)
    else gapValue top bottom alfa b1 d
  else gapValue top bottom alfa b1 d

/-- Clipping to `[vlow, vhigh]`: `np.clip(x, vlow, vhigh) =
min(vhigh, max(vlow, x))`. -/
def clip (vlow vhigh x : ℚ) : ℚ := min vhigh (max vlow x)

/-- The dense per-centimetre prediction array before clipping: one entry
for every `d` in `range(max_depth)`. -/
def est1cmRaw {n : ℕ} (top bottom alfa b0 b1 gamma : Fin n → ℚ) (maxd : ℕ) :
    List (Option ℚ) :=
  (List.range maxd).map fun d : ℕ => predictAt top bottom alfa b0 b1 gamma (d : ℚ)

/-- Aggregation of one target interval `(t, b)` in
`_fit_spline_predictions`: NaN when `t ≥ max_depth`; otherwise the Python
slice `est_1cm[t : min(b, max_depth)]` is averaged over its defined
entries (`np.nanmean`), with NaN for an empty or all-NaN slice. -/
def aggregateOne (est : List (Option ℚ)) (maxd t b : ℕ) : Option ℚ :=
  if maxd ≤ t then none
  else
    if t < min b maxd then
      let ds := ((est.take (min b maxd)).drop t).filterMap id
      if ds.isEmpty then none else some (ds.sum / (ds.length : ℚ))
    else none

/-- Embedding of `_fit_spline_predictions`: the clipped 1 cm estimate
array and the per-target aggregated values. -/
def fitSplinePredictions {n : ℕ} (top bottom alfa b0 b1 gamma : Fin n → ℚ)
    (maxd : ℕ) (targets : List (ℕ × ℕ)) (vlow vhigh : ℚ) :
    List (Option ℚ) × List (Option ℚ) :=
  let est := (est1cmRaw top bottom alfa b0 b1 gamma maxd).map
    (Option.map (clip vlow vhigh))
  (est, targets.map fun tb => aggregateOne est maxd tb.1 tb.2)

/-- Numpy percentile (default linear interpolation) of a list of defined
values: sort, take the fractional order statistic at `(len-1)*p/100`. -/
def percentile (l : List ℚ) (p : ℚ) : ℚ :=
  let s := l.insertionSort (· ≤ ·)
  if s.length = 0 then 0
  else
    let k : ℚ := ((s.length : ℚ) - 1) * p / 100
    let f : ℕ := (⌊k⌋).toNat
    let c : ℕ := min (f + 1) (s.length - 1)
    s.getD f 0 + (k - (f : ℚ)) * (s.getD c 0 - s.getD f 0)

/-- Embedding of `_calculate_rmse` up to the final square root (see the
header): drop positions where either input is NaN; when nothing remains
both outputs are NaN; otherwise return the mean squared residual (the
square of the rmse of the source) and, when the interquartile range of
the retained observed values is positive, that value divided by `iqr²`
(the square of `rmse/iqr`), else NaN. -/
def calculateRmse (values fitted : List (Option ℚ)) : Option ℚ × Option ℚ :=
  let pairs := (values.zip fitted).filterMap fun pr =>
    match pr.1, pr.2 with
    | some a, some b => some (a, b)
    | _, _ => none
  if pairs.isEmpty then (none, none)
  else
    let mse := (pairs.map fun pr => (pr.1 - pr.2) ^ 2).sum / (pairs.length : ℚ)
    let vclean := pairs.map (fun pr => pr.1)
    let iqr := percentile vclean 75 - percentile vclean 25
    (some mse, if 0 < iqr then some (mse / iqr ^ 2) else none)

/-- Python `int(q)` for the nonnegative rationals produced by validation
(truncation toward zero equals the floor there). -/
def pyIntNat (q : ℚ) : ℕ := (⌊q⌋).toNat

/-- Maximum lower depth of a validated profile (`max(depths_bottom)`). -/
def maxLd : List PRow → ℚ
  | [] => 0
  | r :: t => t.foldl (fun m x => max m x.ld) r.ld

/-- Result record of `spline_one`.  `rmseSq`/`rmseIqrSq` carry the squared
fit-quality scalars (see the header); the formatted interval names of the
source are pure string formatting and are not modelled. -/
structure SplineResult where
  estDcm : List (Option ℚ)
  est1cm : List (Option ℚ)
  rmseSq : Option ℚ
  rmseIqrSq : Option ℚ
deriving DecidableEq

/-- The GlobalSoilMap standard target intervals (`GLOBALSM_DEPTHS` in
`constants.py`). -/
def GLOBALSM_DEPTHS : List (ℕ × ℕ) :=
  [(0, 5), (5, 15), (15, 30), (30, 60), (60, 100), (100, 200)]

/-- Main fitting path of `spline_one` for a validated profile with at
least two rows: estimate parameters, predict to
`max_depth = int(max(LD)) + 1`, aggregate, and compute the fit-quality
scalars from the observed values and `s_bar`. -/
def fitFrom (s : List PRow) (lam : ℚ) (targets : List (ℕ × ℕ)) (vlow vhigh : ℚ) :
    SplineResult :=
  let n := s.length
  let top : Fin n → ℚ := fun i => (s.get i).ud
  let bottom : Fin n → ℚ := fun i => (s.get i).ld
  let values : Fin n → ℚ := fun i => (s.get i).val
  let P := estimateSplineParameters top bottom values lam
  let maxd := pyIntNat (maxLd s) + 1
  let pr := fitSplinePredictions top bottom P.alfa P.b0 P.b1 P.gamma maxd targets vlow vhigh
  let rm := calculateRmse (List.ofFn fun i => some (values i))
    (List.ofFn fun i => some (P.sbar i))
  ⟨pr.2, pr.1, rm.1, rm.2⟩

/-- Embedding of `spline_one`: validation failure yields NaN aggregates
(one per target interval), an empty 1 cm array and NaN fit quality; a
single surviving horizon broadcasts its value with zero fit error; any
other profile goes through the full fitting pipeline. -/
def splineOne (rows : List Row) (lam : ℚ) (targets : List (ℕ × ℕ))
    (vlow vhigh : ℚ) : SplineResult :=
  match validateAndPrepareData rows with
  | none => ⟨List.replicate targets.length none, [], none, none⟩
  | some s =>
    match s with
    | [r] =>
      ⟨List.replicate targets.length (some r.val),
       List.replicate (pyIntNat r.ld) (some r.val), some 0, some 0⟩
    | s => fitFrom s lam targets vlow vhigh

/-- Cache key of the module-level matrix cache:
`(tuple(depths_top), tuple(depths_bottom), lam)`. -/
abbrev CacheKey : Type := List ℚ × List ℚ × ℚ

/-- Cached value: the tuple `(Z, R_inv, Q, th, gp)` packaged with the
number of intervals of its depth pattern. -/
abbrev MatVal : Type :=
  Σ n : ℕ, Matrix (Fin n) (Fin n) ℚ × Matrix (Fin (n - 1)) (Fin (n - 1)) ℚ ×
    Matrix (Fin (n - 1)) (Fin n) ℚ × (Fin n → ℚ) × (Fin (n - 1) → ℚ)

/-- Fresh computation of the matrix tuple for a cache key (the build part
of `_get_spline_matrices`).  The source converts the key tuples back to
arrays of equal length; positions beyond the bottom list are defaulted. -/
def buildMatrices (k : CacheKey) : MatVal :=
  let n := k.1.length
  let top : Fin n → ℚ := fun i => k.1.get i
  let bottom : Fin n → ℚ := fun i => k.2.1.getD i.1 0
  ⟨n, buildZ top bottom k.2.2, matInv (buildR top bottom), buildQ n,
    thF top bottom, gpF top bottom⟩

/-- The process-wide matrix cache, as an association list with unique
keys (Python dict). -/
abbrev Cache : Type := List (CacheKey × MatVal)

/-- Dict lookup. -/
def lookupC : Cache → CacheKey → Option MatVal
  | [], _ => none
  | (k1, v) :: t, k => if k1 = k then some v else lookupC t k

/-- Embedding of `_get_spline_matrices`: return the cached tuple on a hit;
otherwise clear the whole cache when it holds more than 1000 entries,
build the matrices, insert and return them together with the new cache
state. -/
def getSplineMatrices (c : Cache) (k : CacheKey) : MatVal × Cache :=
  match lookupC c k with
  | some v => (v, c)
  | none =>
    let c1 : Cache := if 1000 < c.length then [] else c
    let v := buildMatrices k
    (v, (k, v) :: c1)

/-- Well-formedness of a cache state: every stored tuple is the fresh
build of its key.  This holds for every cache state the source can reach,
because `_get_spline_matrices` is the only writer. -/
def wfCache (c : Cache) : Prop :=
  ∀ kv ∈ c, kv.2 = buildMatrices kv.1

/-! Dict model for `_standardize_horizons` (`spline.py`).  A Python dict
with string keys is modelled as an association list with pairwise distinct
keys; lookups take the first matching entry. -/

/-- Heterogeneous dict values: strings (horizon names) or numbers
(depths and measured properties, `none` for NaN). -/
inductive HV where
  | str (s : String)
  | num (q : Option ℚ)
deriving DecidableEq

/-- One horizon dict. -/
abbrev Horizon : Type := List (String × HV)

/-- Dict lookup (`k in h` and `h[k]`). -/
def lookupKey (k : String) (h : Horizon) : Option HV :=
  (h.find? (fun p => p.1 = k)).map Prod.snd

/-- Dict `pop`: remove the entry for a key (the first one; keys of a
Python dict are unique). -/
def eraseKey (k : String) (h : Horizon) : Horizon :=
  h.eraseP (fun p => p.1 = k)

/-- Dict assignment `h[k] = v`: overwrite in place when the key exists,
otherwise append at the end. -/
def setKey (k : String) (v : HV) (h : Horizon) : Horizon :=
  if (h.find? (fun p => p.1 = k)).isSome then
    h.map (fun p => if p.1 = k then (k, v) else p)
  else h ++ [(k, v)]

/-- The `hzname` stage of the `_standardize_horizons` loop body: fill
`hzname` from `name` or `label` (when they hold strings) or with
`H{i+1}`. -/
def hznameStage (i : ℕ) (h2 : Horizon) : Horizon :=
  if (lookupKey "hzname" h2).isSome then h2
  else
    match lookupKey "name" h2 with
    | some (HV.str s) => setKey "hzname" (HV.str s) (eraseKey "name" h2)
    | _ =>
      match lookupKey "label" h2 with
      | some (HV.str s) => setKey "hzname" (HV.str s) (eraseKey "label" h2)
      | _ => setKey "hzname" (HV.str ("H" ++ toString (i + 1))) h2

/-- Standardization of one horizon dict at position `i`
(`_standardize_horizons` loop body): move `top` to `upper` and `bottom`
to `lower` when the standard key is absent, then run the `hzname` stage.
The alias sets of the source are `{"top", "upper"}` and
`{"bottom", "lower"}`; inside the branch the standard key is absent, so
only the non-standard alias can fire regardless of set-iteration
order. -/
def stdOne (i : ℕ) (h : Horizon) : Horizon :=
  let h1 :=
    if (lookupKey "upper" h).isSome then h
    else
      match lookupKey "top" h with
      | some v => setKey "upper" v (eraseKey "top" h)
      | none => h
  let h2 :=
    if (lookupKey "lower" h1).isSome then h1
    else
      match lookupKey "bottom" h1 with
      | some v => setKey "lower" v (eraseKey "bottom" h1)
      | none => h1
  hznameStage i h2

/-- Recursion over the enumerated horizon list (`for i, hz in
enumerate(horizons)`), starting at index `i`. -/
def standardizeFrom (i : ℕ) : List Horizon → List Horizon
  | [] => []
  | h :: t => stdOne i h :: standardizeFrom (i + 1) t

/-- Embedding of `_standardize_horizons`. -/
def standardizeHorizons (hs : List Horizon) : List Horizon :=
  standardizeFrom 0 hs

/-- Renaming of the standard depth keys of a horizon to their aliases,
in place: `upper ↦ top`, `lower ↦ bottom`.  This is the transformation
relating the two input forms of the claim about depth-key aliases. -/
def aliasKeys (h : Horizon) : Horizon :=
  h.map fun p =>
    if p.1 = "upper" then ("top", p.2)
    else if p.1 = "lower" then ("bottom", p.2) else p

/-- The keys of a horizon dict. -/
def hzKeys (h : Horizon) : List String := h.map (fun p => p.1)


/-- Specification-side description of the aggregation of one target
interval, for comparison with `aggregateOne`: NaN when `top ≥ max_depth`;
otherwise the arithmetic mean of the defined values of the continuous
estimate at the unit depths in `[top, min(bottom, max_depth))`, NaN when
that range holds no defined value. -/
def specAggregate (est : List (Option ℚ)) (maxd t b : ℕ) : Option ℚ :=
  if maxd ≤ t then none
  else
    let ds := (List.range' t (min b maxd - t)).filterMap fun i => est.getD i none
    if ds.isEmpty then none else some (ds.sum / (ds.length : ℚ))

/-- The two-interval profile of the concrete scenario of the spec:
`(0,20)` with value 24.5 and `(20,50)` with value 35.2. -/
def rowsA : List Row := [⟨some 0, some 20, some (49/2)⟩, ⟨some 20, some 50, some (176/5)⟩]

/-- The validated form of `rowsA`. -/
def sA : List PRow := [⟨0, 20, 49/2⟩, ⟨20, 50, 176/5⟩]

/-- Upper depths of the scenario profile. -/
def topA : Fin 2 → ℚ := ![0, 20]

/-- Lower depths of the scenario profile. -/
def botA : Fin 2 → ℚ := ![20, 50]

/-- Values of the scenario profile. -/
def valsA : Fin 2 → ℚ := ![49/2, 176/5]

end Mpspline

namespace Mpspline

/-! Helper lemmas shared by several results. -/

/-- Validation result on the scenario profile. -/
theorem validateScenarioA : validateAndPrepareData rowsA = some sA := by
  norm_num [validateAndPrepareData, rowsA, sA, fillFirstTop, fillLastBottom, toPRows,
    hasOverlap, optNonneg, optLtOpt, maxDefinedUd, List.insertionSort, List.orderedInsert,
    List.filter, List.filterMap, List.all, List.reverse, List.max?, List.length]

/-- C1: the spec requires a single-interval profile `(0,20, value 25.0)` to
broadcast 25.0 to every default target window with zero fit error; the code
instead rejects it in `_validate_and_prepare_data` (fewer than 2 rows with a
defined value), so `spline_one` returns NaN for every target window and NaN
fit-quality scalars, and the broadcast branch of `spline_one` is unreachable
for such input.  This theorem evaluates the embedded code at the failing
input. -/
theorem C1_single_interval_profile_returns_nan :
    splineOne [⟨some 0, some 20, some 25⟩] (1/10) GLOBALSM_DEPTHS 0 1000 =
      ⟨List.replicate 6 none, [], none, none⟩ := by decide

/-- C9: when every observed value of the chosen variable is missing, the
validation step returns `None` and `spline_one` returns (without raising)
NaN for every target interval, an empty continuous estimate, and NaN for
both fit-quality scalars. -/
theorem C9_all_nan (rows : List Row) (lam : ℚ) (targets : List (ℕ × ℕ))
    (vlow vhigh : ℚ) (h : ∀ r ∈ rows, r.val = none) :
    splineOne rows lam targets vlow vhigh =
      ⟨List.replicate targets.length none, [], none, none⟩ := by
  have hall : rows.all (fun r => r.val.isNone) = true := by
    rw [List.all_eq_true]
    intro r hr
    rw [Option.isNone_iff_eq_none]
    exact h r hr
  have hv : validateAndPrepareData rows = none := by
    rw [validateAndPrepareData, if_pos hall]
  rw [splineOne, hv]

/-- Witness for C9 at a concrete two-interval profile with both values
missing. -/
theorem C9_witness :
    (∀ r ∈ [(⟨some 0, some 20, none⟩ : Row), ⟨some 20, some 50, none⟩], r.val = none) ∧
    splineOne [⟨some 0, some 20, none⟩, ⟨some 20, some 50, none⟩] (1/10)
        GLOBALSM_DEPTHS 0 1000 =
      ⟨List.replicate GLOBALSM_DEPTHS.length none, [], none, none⟩ :=
  ⟨by decide, C9_all_nan _ _ _ _ _ (by decide)⟩

/-- C2: after prediction every defined entry of the continuous estimate
array lies within `[vlow, vhigh]` (undefined depths stay NaN, which the
spec treats as no value). -/
theorem C2_est1cm_values_clipped {n : ℕ} (top bottom alfa b0 b1 gamma : Fin n → ℚ)
    (maxd : ℕ) (targets : List (ℕ × ℕ)) (vlow vhigh : ℚ) (h : vlow ≤ vhigh) :
    ∀ o ∈ (fitSplinePredictions top bottom alfa b0 b1 gamma maxd targets vlow vhigh).1,
      ∀ q : ℚ, o = some q → vlow ≤ q ∧ q ≤ vhigh := by
  intro o ho q hq
  rw [fitSplinePredictions] at ho
  simp only [List.mem_map] at ho
  obtain ⟨x, -, rfl⟩ := ho
  match x, hq with
  | some y, hq =>
    have hy : clip vlow vhigh y = q := by simpa using hq
    subst hy
    constructor
    · exact le_min h (le_max_left _ _)
    · exact min_le_left _ _

/-- Witness for C2 with the scenario depth pattern, zero coefficients, and
the default bounds. -/
theorem C2_witness :
    (0 : ℚ) ≤ 1000 ∧
    ∀ o ∈ (fitSplinePredictions topA botA (fun _ => 0) (fun _ => 0) (fun _ => 0)
        (fun _ => 0) 3 [] 0 1000).1,
      ∀ q : ℚ, o = some q → (0 : ℚ) ≤ q ∧ q ≤ 1000 :=
  ⟨by norm_num,
   C2_est1cm_values_clipped topA botA _ _ _ _ 3 [] 0 1000 (by norm_num)⟩

end Mpspline

namespace Mpspline

/-- Python slice `l[t:e]` as indexed reads, for `e` within bounds. -/
theorem slice_eq_range (l : List (Option ℚ)) (t e : ℕ) (he : e ≤ l.length) :
    (l.take e).drop t = (List.range' t (e - t)).map fun i => l.getD i none := by
  apply List.ext_getElem
  · simp [List.length_range']
    omega
  · intro i h1 h2
    have hi : t + i < e := by
      have h3 := h1
      simp only [List.length_drop, List.length_take] at h3
      omega
    simp only [List.getElem_drop, List.getElem_take, List.getElem_map, List.getElem_range',
      one_mul]
    rw [List.getD_eq_getElem l none (by omega : t + i < l.length)]

/-- The code-side aggregation of one target interval agrees with the
specification-side description whenever the estimate array has one entry
per unit depth below `maxd`. -/
theorem aggregateOne_eq_spec (est : List (Option ℚ)) (maxd t b : ℕ)
    (hlen : est.length = maxd) :
    aggregateOne est maxd t b = specAggregate est maxd t b := by
  rw [aggregateOne, specAggregate]
  by_cases h1 : maxd ≤ t
  · simp [h1]
  · rw [if_neg h1, if_neg h1]
    by_cases h2 : t < min b maxd
    · rw [if_pos h2, slice_eq_range est t (min b maxd) (by omega), List.filterMap_map]
      rfl
    · rw [if_neg h2, show min b maxd - t = 0 from by omega]
      simp

/-- C5: each aggregated estimate is NaN when `top ≥ max_depth`, and
otherwise the arithmetic mean of the defined values of the continuous
estimate over `[top, min(bottom, max_depth))`, NaN when that slice is
empty or entirely undefined — as described by `specAggregate`. -/
theorem C5_aggregation_spec {n : ℕ} (top bottom alfa b0 b1 gamma : Fin n → ℚ)
    (maxd : ℕ) (targets : List (ℕ × ℕ)) (vlow vhigh : ℚ) :
    (fitSplinePredictions top bottom alfa b0 b1 gamma maxd targets vlow vhigh).2 =
      targets.map fun tb =>
        specAggregate
          (fitSplinePredictions top bottom alfa b0 b1 gamma maxd targets vlow vhigh).1
          maxd tb.1 tb.2 := by
  have hlen :
      (fitSplinePredictions top bottom alfa b0 b1 gamma maxd targets vlow vhigh).1.length =
        maxd := by
    rw [fitSplinePredictions]
    simp [est1cmRaw]
  rw [show (fitSplinePredictions top bottom alfa b0 b1 gamma maxd targets vlow vhigh).2 =
    targets.map fun tb =>
      aggregateOne
        (fitSplinePredictions top bottom alfa b0 b1 gamma maxd targets vlow vhigh).1
        maxd tb.1 tb.2 from rfl]
  exact List.map_congr_left fun tb _ => aggregateOne_eq_spec _ _ _ _ hlen

/-- Every stored cache value is the fresh build of its key. -/
theorem lookupC_wf (c : Cache) (k : CacheKey) (v : MatVal) (hwf : wfCache c)
    (hl : lookupC c k = some v) : v = buildMatrices k := by
  induction c with
  | nil => simp [lookupC] at hl
  | cons kv t ih =>
    rw [show lookupC (kv :: t) k = if kv.1 = k then some kv.2 else lookupC t k from rfl] at hl
    by_cases hk : kv.1 = k
    · rw [if_pos hk] at hl
      have := hwf kv (List.mem_cons_self kv t)
      cases hl
      rw [this, hk]
    · rw [if_neg hk] at hl
      exact ih (fun x hx => hwf x (List.mem_cons_of_mem kv hx)) hl

/-- C8: fetching the matrices for a key from a reachable (well-formed)
cache returns the fresh build of that key; fetching again from the
returned cache is a hit (the key is stored, the returned tuple is
identical, and the cache state does not change); and the result equals a
fresh build on an empty cache. -/
theorem C8_cache_idempotent (c : Cache) (k : CacheKey) (hwf : wfCache c) :
    (getSplineMatrices c k).1 = buildMatrices k ∧
    lookupC (getSplineMatrices c k).2 k = some (getSplineMatrices c k).1 ∧
    (getSplineMatrices (getSplineMatrices c k).2 k).1 = (getSplineMatrices c k).1 ∧
    (getSplineMatrices (getSplineMatrices c k).2 k).2 = (getSplineMatrices c k).2 ∧
    (getSplineMatrices ([] : Cache) k).1 = (getSplineMatrices c k).1 := by
  have hfresh : getSplineMatrices ([] : Cache) k =
      (buildMatrices k, [(k, buildMatrices k)]) := rfl
  cases hl : lookupC c k with
  | some v =>
    have hv : v = buildMatrices k := lookupC_wf c k v hwf hl
    have h1 : getSplineMatrices c k = (v, c) := by
      rw [getSplineMatrices, hl]
    rw [h1, hfresh, hl]
    exact ⟨hv, rfl, by rw [getSplineMatrices, hl], by rw [getSplineMatrices, hl], hv.symm⟩
  | none =>
    have h1 : getSplineMatrices c k =
        (buildMatrices k, (k, buildMatrices k) :: if 1000 < c.length then [] else c) := by
      rw [getSplineMatrices, hl]
    have h2 : lookupC ((k, buildMatrices k) :: if 1000 < c.length then [] else c) k =
        some (buildMatrices k) := by
      rw [show lookupC ((k, buildMatrices k) :: if 1000 < c.length then [] else c) k =
        if k = k then some (buildMatrices k) else lookupC (if 1000 < c.length then [] else c) k
        from rfl, if_pos rfl]
    rw [h1, hfresh]
    refine ⟨rfl, h2, ?_, ?_, rfl⟩
    · rw [getSplineMatrices, h2]
    · rw [getSplineMatrices, h2]

/-- Witness for C8 on the empty cache and the scenario depth pattern. -/
theorem C8_witness :
    wfCache [] ∧
    ((getSplineMatrices ([] : Cache) ([0, 20], [20, 50], 1/10)).1 =
        buildMatrices ([0, 20], [20, 50], 1/10) ∧
      lookupC (getSplineMatrices ([] : Cache) ([0, 20], [20, 50], 1/10)).2
          ([0, 20], [20, 50], 1/10) =
        some (getSplineMatrices ([] : Cache) ([0, 20], [20, 50], 1/10)).1 ∧
      (getSplineMatrices (getSplineMatrices ([] : Cache) ([0, 20], [20, 50], 1/10)).2
            ([0, 20], [20, 50], 1/10)).1 =
        (getSplineMatrices ([] : Cache) ([0, 20], [20, 50], 1/10)).1 ∧
      (getSplineMatrices (getSplineMatrices ([] : Cache) ([0, 20], [20, 50], 1/10)).2
            ([0, 20], [20, 50], 1/10)).2 =
        (getSplineMatrices ([] : Cache) ([0, 20], [20, 50], 1/10)).2 ∧
      (getSplineMatrices ([] : Cache) ([0, 20], [20, 50], 1/10)).1 =
        (getSplineMatrices ([] : Cache) ([0, 20], [20, 50], 1/10)).1) :=
  ⟨fun kv hkv => absurd hkv (List.not_mem_nil kv),
   C8_cache_idempotent [] ([0, 20], [20, 50], 1/10)
     (fun kv hkv => absurd hkv (List.not_mem_nil kv))⟩

end Mpspline

namespace Mpspline

open Matrix

/-- Diagonal entries of `R`. -/
theorem buildR_diag {n : ℕ} (top bottom : Fin n → ℚ) (i : Fin (n - 1)) :
    buildR top bottom i i =
      2 * (thF top bottom (castL i) + thF top bottom (castR i)) + 6 * gpF top bottom i := by
  simp [buildR]

/-- Superdiagonal entries of `R`. -/
theorem buildR_super {n : ℕ} (top bottom : Fin n → ℚ) {i j : Fin (n - 1)}
    (h : j.1 = i.1 + 1) : buildR top bottom i j = thF top bottom (castL j) := by
  have h1 : ¬(i = j) := by rw [Fin.ext_iff]; omega
  rw [buildR]
  simp only [Matrix.of_apply]
  rw [if_neg h1, if_pos h]

/-- Subdiagonal entries of `R`. -/
theorem buildR_sub {n : ℕ} (top bottom : Fin n → ℚ) {i j : Fin (n - 1)}
    (h : i.1 = j.1 + 1) : buildR top bottom i j = thF top bottom (castL i) := by
  have h1 : ¬(i = j) := by rw [Fin.ext_iff]; omega
  have h2 : ¬(j.1 = i.1 + 1) := by omega
  rw [buildR]
  simp only [Matrix.of_apply]
  rw [if_neg h1, if_neg h2, if_pos h]

/-- Entries of `R` away from the three central diagonals vanish. -/
theorem buildR_far {n : ℕ} (top bottom : Fin n → ℚ) {i j : Fin (n - 1)}
    (h1 : i.1 ≠ j.1) (h2 : j.1 ≠ i.1 + 1) (h3 : i.1 ≠ j.1 + 1) :
    buildR top bottom i j = 0 := by
  have h1f : ¬(i = j) := by rw [Fin.ext_iff]; exact h1
  rw [buildR]
  simp only [Matrix.of_apply]
  rw [if_neg h1f, if_neg h2, if_neg h3]

/-- The matrix `R` is symmetric. -/
theorem buildR_symm {n : ℕ} (top bottom : Fin n → ℚ) :
    (buildR top bottom)ᵀ = buildR top bottom := by
  ext i j
  rw [Matrix.transpose_apply]
  rcases Nat.lt_trichotomy i.1 j.1 with hlt | heq | hgt
  · by_cases hadj : j.1 = i.1 + 1
    · rw [buildR_sub top bottom (show j.1 = i.1 + 1 from hadj),
        buildR_super top bottom (show j.1 = i.1 + 1 from hadj)]
    · rw [buildR_far top bottom (by omega) (by omega) (by omega),
        buildR_far top bottom (by omega) (by omega) (by omega)]
  · have : i = j := by rw [Fin.ext_iff]; exact heq
    rw [this]
  · by_cases hadj : i.1 = j.1 + 1
    · rw [buildR_super top bottom (show i.1 = j.1 + 1 from hadj),
        buildR_sub top bottom (show i.1 = j.1 + 1 from hadj)]
    · rw [buildR_far top bottom (by omega) (by omega) (by omega),
        buildR_far top bottom (by omega) (by omega) (by omega)]

/-- Transposition commutes with the modelled matrix inverse. -/
theorem matInv_transpose {m : ℕ} (A : Matrix (Fin m) (Fin m) ℚ) :
    (matInv A)ᵀ = matInv Aᵀ := by
  rw [matInv, matInv, Matrix.transpose_smul, Matrix.det_transpose, Matrix.adjugate_transpose]

/-- The system matrix `Z` is symmetric. -/
theorem buildZ_symm {n : ℕ} (top bottom : Fin n → ℚ) (lam : ℚ) :
    (buildZ top bottom lam)ᵀ = buildZ top bottom lam := by
  rw [buildZ, Matrix.transpose_add, Matrix.transpose_one, Matrix.transpose_smul,
    Matrix.transpose_mul, Matrix.transpose_mul, Matrix.transpose_transpose,
    matInv_transpose, buildR_symm, Matrix.mul_assoc]

/-- C4: for a depth pattern with `n ≥ 2` and `λ > 0`, `R` is the symmetric
tridiagonal matrix with diagonal `2*(th[i]+th[i+1]) + 6*gp[i]` and
super/sub-diagonal `th[i+1]`, `Q` is the forward-difference operator, and
`Z = I + 6*n*λ*QᵀR⁻¹Q` (definitionally, see `buildZ`) is symmetric when
`R` is invertible; the solve returns a vector indexed by `Fin n`, hence
of length `n`. -/
theorem C4_matrix_construction {n : ℕ} (top bottom : Fin n → ℚ) (lam : ℚ)
    (hn : 2 ≤ n) (hlam : 0 < lam) (hR : (buildR top bottom).det ≠ 0) :
    (∀ i : Fin (n - 1), buildR top bottom i i =
        2 * (thF top bottom (castL i) + thF top bottom (castR i)) + 6 * gpF top bottom i) ∧
    (∀ i j : Fin (n - 1), j.1 = i.1 + 1 →
        buildR top bottom i j = thF top bottom (castL j) ∧
        buildR top bottom j i = thF top bottom (castL j)) ∧
    (∀ i j : Fin (n - 1), i ≠ j → j.1 ≠ i.1 + 1 → i.1 ≠ j.1 + 1 →
        buildR top bottom i j = 0) ∧
    (buildR top bottom)ᵀ = buildR top bottom ∧
    (∀ i : Fin (n - 1), ∀ j : Fin n,
        buildQ n i j = if j.1 = i.1 then -1 else if j.1 = i.1 + 1 then 1 else 0) ∧
    (buildZ top bottom lam)ᵀ = buildZ top bottom lam ∧
    (∀ v : Fin n → ℚ, (List.ofFn (linSolve (buildZ top bottom lam) v)).length = n) := by
  refine ⟨buildR_diag top bottom, ?_, ?_, buildR_symm top bottom, ?_,
    buildZ_symm top bottom lam, ?_⟩
  · intro i j hj
    exact ⟨buildR_super top bottom hj, buildR_sub top bottom hj⟩
  · intro i j h1 h2 h3
    exact buildR_far top bottom (fun hv => h1 (by rw [Fin.ext_iff]; exact hv)) h2 h3
  · intro i j
    rfl
  · intro v
    exact List.length_ofFn _

/-- Witness for C4 on the scenario depth pattern with the default
smoothing parameter. -/
theorem C4_witness :
    (2 ≤ 2 ∧ (0 : ℚ) < 1/10 ∧ (buildR topA botA).det ≠ 0) ∧
    ((∀ i : Fin (2 - 1), buildR topA botA i i =
        2 * (thF topA botA (castL i) + thF topA botA (castR i)) + 6 * gpF topA botA i) ∧
    (∀ i j : Fin (2 - 1), j.1 = i.1 + 1 →
        buildR topA botA i j = thF topA botA (castL j) ∧
        buildR topA botA j i = thF topA botA (castL j)) ∧
    (∀ i j : Fin (2 - 1), i ≠ j → j.1 ≠ i.1 + 1 → i.1 ≠ j.1 + 1 →
        buildR topA botA i j = 0) ∧
    (buildR topA botA)ᵀ = buildR topA botA ∧
    (∀ i : Fin (2 - 1), ∀ j : Fin 2,
        buildQ 2 i j = if j.1 = i.1 then -1 else if j.1 = i.1 + 1 then 1 else 0) ∧
    (buildZ topA botA (1/10))ᵀ = buildZ topA botA (1/10) ∧
    (∀ v : Fin 2 → ℚ, (List.ofFn (linSolve (buildZ topA botA (1/10)) v)).length = 2)) :=
  ⟨⟨le_refl 2, by norm_num, by
      rw [Matrix.det_fin_one]
      norm_num [buildR, thF, gpF, castL, castR, topA, botA]⟩,
   C4_matrix_construction topA botA (1/10) (le_refl 2) (by norm_num) (by
      rw [Matrix.det_fin_one]
      norm_num [buildR, thF, gpF, castL, castR, topA, botA])⟩

end Mpspline

namespace Mpspline

open Matrix

/-- C6 counterexample: for the scenario profile (maximum lower boundary
50) the continuous estimate has 51 entries, not 50. -/
theorem C6_counterexample :
    (splineOne rowsA (1/10) GLOBALSM_DEPTHS 0 1000).est1cm.length = 51 ∧
    (51 : ℕ) ≠ 50 := by
  constructor
  · have hsplit : splineOne rowsA (1/10) GLOBALSM_DEPTHS 0 1000 =
        fitFrom sA (1/10) GLOBALSM_DEPTHS 0 1000 := by
      rw [splineOne, validateScenarioA]
      rfl
    have hmaxd : pyIntNat (maxLd sA) + 1 = 51 := by decide
    rw [hsplit]
    show ((est1cmRaw _ _ _ _ _ _ (pyIntNat (maxLd sA) + 1)).map
      (Option.map (clip 0 1000))).length = 51
    rw [est1cmRaw, List.length_map, List.length_map, List.length_range, hmaxd]
  · decide

/-- C6 amended: for every profile that passes validation with at least two
rows, the continuous estimate has one entry per unit depth from 0 up to
and including the integer part of the maximum lower boundary; its length
is `int(max(LD)) + 1`, one more than the claimed `max_depth`. -/
theorem C6_amended_length (rows : List Row) (s : List PRow) (lam : ℚ)
    (targets : List (ℕ × ℕ)) (vlow vhigh : ℚ)
    (hv : validateAndPrepareData rows = some s) (h2 : 2 ≤ s.length) :
    (splineOne rows lam targets vlow vhigh).est1cm.length = pyIntNat (maxLd s) + 1 := by
  rw [splineOne, hv]
  match s, h2 with
  | a :: b :: t, _ =>
    show ((est1cmRaw _ _ _ _ _ _ (pyIntNat (maxLd (a :: b :: t)) + 1)).map
      (Option.map (clip vlow vhigh))).length = _
    rw [est1cmRaw, List.length_map, List.length_map, List.length_range]

/-- Witness for the amended C6 on the scenario profile. -/
theorem C6_witness :
    (validateAndPrepareData rowsA = some sA ∧ 2 ≤ sA.length) ∧
    (splineOne rowsA (1/10) GLOBALSM_DEPTHS 0 1000).est1cm.length =
      pyIntNat (maxLd sA) + 1 :=
  ⟨⟨validateScenarioA, by decide⟩,
   C6_amended_length rowsA sA (1/10) GLOBALSM_DEPTHS 0 1000 validateScenarioA (by decide)⟩

end Mpspline

namespace Mpspline

open Matrix

/-- Exact value of the aggregated estimate for the `(0,5)` window on the
scenario profile with the default smoothing parameter and bounds:
`231727/10240 = 22.6295…`. -/
theorem scenarioA_window0 :
    (splineOne rowsA (1/10) GLOBALSM_DEPTHS 0 1000).estDcm.get? 0 =
      some (some (231727/10240)) := by
  have hsplit : splineOne rowsA (1/10) GLOBALSM_DEPTHS 0 1000 =
      fitFrom sA (1/10) GLOBALSM_DEPTHS 0 1000 := by
    rw [splineOne, validateScenarioA]
    rfl
  have htop : (fun i : Fin (sA.length) => (sA.get i).ud) = topA := by
    funext i; fin_cases i <;> rfl
  have hbot : (fun i : Fin (sA.length) => (sA.get i).ld) = botA := by
    funext i; fin_cases i <;> rfl
  have hvals : (fun i : Fin (sA.length) => (sA.get i).val) = valsA := by
    funext i; fin_cases i <;> rfl
  have hmaxd : pyIntNat (maxLd sA) + 1 = 51 := by decide
  have hfit : fitFrom sA (1/10) GLOBALSM_DEPTHS 0 1000 =
      (let P := estimateSplineParameters topA botA valsA (1/10)
       let pr := fitSplinePredictions topA botA P.alfa P.b0 P.b1 P.gamma 51 GLOBALSM_DEPTHS 0 1000
       let rm := calculateRmse (List.ofFn fun i => some (valsA i))
         (List.ofFn fun i => some (P.sbar i))
       ⟨pr.2, pr.1, rm.1, rm.2⟩) := by
    rw [fitFrom]
    rw [show (fun i : Fin (sA.length) => (sA.get i).ud) = topA from htop,
        show (fun i : Fin (sA.length) => (sA.get i).ld) = botA from hbot,
        show (fun i : Fin (sA.length) => (sA.get i).val) = valsA from hvals, hmaxd]
    rfl
  have hRinv : matInv (buildR topA botA) = Matrix.of fun _ _ => (1 : ℚ)/100 := by
    have h00 : buildR topA botA 0 0 = 100 := by
      simp [buildR, thF, gpF, castL, castR, topA, botA]
      norm_num
    ext i j
    fin_cases i; fin_cases j
    rw [matInv, Matrix.det_fin_one, Matrix.adjugate_fin_one, h00]
    norm_num
  have hZ : buildZ topA botA (1/10) = !![253/250, -3/250; -3/250, 253/250] := by
    ext i j
    rw [buildZ, hRinv]
    fin_cases i <;> fin_cases j <;>
      simp [Matrix.mul_apply, Matrix.one_apply, buildQ, Fin.sum_univ_succ] <;> norm_num
  have hs : linSolve (buildZ topA botA (1/10)) valsA = ![63041/2560, 89791/2560] := by
    funext i
    rw [linSolve, matInv, hZ, Matrix.det_fin_two, Matrix.adjugate_fin_two]
    fin_cases i <;>
      simp [Matrix.mulVec, Matrix.dotProduct, Fin.sum_univ_succ, valsA] <;> norm_num
  have hcoef : (estimateSplineParameters topA botA valsA (1/10)).alfa 0 = 57691/2560 ∧
      (estimateSplineParameters topA botA valsA (1/10)).b0 0 = 0 ∧
      (estimateSplineParameters topA botA valsA (1/10)).gamma 0 = 321/20480 := by
    simp only [estimateSplineParameters, hs, hRinv]
    norm_num [Matrix.mulVec, Matrix.dotProduct, Fin.sum_univ_succ, buildQ, thF, topA, botA]
  have hp : ∀ k : ℕ, k < 5 →
      predictAt topA botA (estimateSplineParameters topA botA valsA (1/10)).alfa
        (estimateSplineParameters topA botA valsA (1/10)).b0
        (estimateSplineParameters topA botA valsA (1/10)).b1
        (estimateSplineParameters topA botA valsA (1/10)).gamma (k : ℚ) =
      some ((461528 + 321 * (k : ℚ) ^ 2)/20480) := by
    intro k hk
    have hcv : countLE topA (k : ℚ) = 1 := by interval_cases k <;> decide
    have hk20 : (k : ℚ) < 20 := by
      have h5 : (k : ℚ) < 5 := by exact_mod_cast hk
      linarith
    rw [predictAt, dif_pos (by simp [hcv])]
    simp only [hcv, show (1 : ℕ) - 1 = 0 from rfl, Fin.mk_zero]
    rw [if_pos (by simpa [botA] using hk20)]
    simp only [show topA 0 = 0 from rfl, hcoef.1, hcoef.2.1, hcoef.2.2]
    ring_nf
  have hest : (((est1cmRaw topA botA (estimateSplineParameters topA botA valsA (1/10)).alfa
      (estimateSplineParameters topA botA valsA (1/10)).b0
      (estimateSplineParameters topA botA valsA (1/10)).b1
      (estimateSplineParameters topA botA valsA (1/10)).gamma 51).map
      (Option.map (clip 0 1000))).take 5) =
      [some (461528/20480), some (461849/20480), some (462812/20480),
       some (464417/20480), some (466664/20480)] := by
    rw [est1cmRaw, ← List.map_take, ← List.map_take, List.take_range,
      show min 5 51 = 5 from rfl, show List.range 5 = [0, 1, 2, 3, 4] from by decide]
    simp only [List.map_cons, List.map_nil, hp 0 (by omega), hp 1 (by omega), hp 2 (by omega),
      hp 3 (by omega), hp 4 (by omega)]
    norm_num [clip]
  have hagg : aggregateOne ((est1cmRaw topA botA
      (estimateSplineParameters topA botA valsA (1/10)).alfa
      (estimateSplineParameters topA botA valsA (1/10)).b0
      (estimateSplineParameters topA botA valsA (1/10)).b1
      (estimateSplineParameters topA botA valsA (1/10)).gamma 51).map
      (Option.map (clip 0 1000))) 51 0 5 = some (231727/10240) := by
    rw [aggregateOne, if_neg (by omega), if_pos (by omega : 0 < min 5 51),
      show min 5 51 = 5 from rfl, List.drop_zero, hest]
    norm_num [List.filterMap_cons]
  rw [hsplit, hfit]
  show (fitSplinePredictions topA botA _ _ _ _ 51 GLOBALSM_DEPTHS 0 1000).2.get? 0 = _
  rw [fitSplinePredictions]
  simp only [GLOBALSM_DEPTHS, List.map_cons, List.get?, hagg]

/-- C7 counterexample: the aggregated estimate of the `(0,5)` window on
the scenario profile is `231727/10240 ≈ 22.63`, which is not within 0.1
of the claimed 21.4. -/
theorem C7_counterexample :
    (splineOne rowsA (1/10) GLOBALSM_DEPTHS 0 1000).estDcm.get? 0 =
      some (some (231727/10240)) ∧
    ¬ |(231727 : ℚ)/10240 - 107/5| ≤ 1/10 :=
  ⟨scenarioA_window0, by rw [abs_le]; norm_num⟩

/-- C7 amended: the aggregated estimate of the `(0,5)` window on the
scenario profile equals `231727/10240`, within 0.1 of 22.63 (the
floating-point run of the source differs from this exact rational value
by far less than the stated tolerance). -/
theorem C7_amended_value :
    (splineOne rowsA (1/10) GLOBALSM_DEPTHS 0 1000).estDcm.get? 0 =
      some (some (231727/10240)) ∧
    |(231727 : ℚ)/10240 - 2263/100| ≤ 1/10 :=
  ⟨scenarioA_window0, by rw [abs_le]; norm_num⟩

end Mpspline

namespace Mpspline

/-- Cardinality of an initial segment of `Fin n`. -/
theorem card_filter_val_lt {n : ℕ} (k : ℕ) (hk : k ≤ n) :
    ((Finset.univ : Finset (Fin n)).filter fun i => i.1 < k).card = k := by
  rw [show ((Finset.univ : Finset (Fin n)).filter fun i => i.1 < k) =
      Finset.map ⟨fun j : Fin k => ⟨j.1, Nat.lt_of_lt_of_le j.2 hk⟩,
        fun a b hab => by
          apply Fin.ext
          have hv := congrArg Fin.val hab
          simpa using hv⟩ Finset.univ from ?_]
  · rw [Finset.card_map, Finset.card_univ, Fintype.card_fin]
  · ext i
    simp only [Finset.mem_filter, Finset.mem_univ, true_and, Finset.mem_map,
      Function.Embedding.coeFn_mk]
    constructor
    · intro hi
      exact ⟨⟨i.1, hi⟩, Fin.ext rfl⟩
    · rintro ⟨j, rfl⟩
      exact j.2

/-- The `searchsorted right` count on a monotone array with the first `k`
entries at most `v` and the rest above it. -/
theorem countLE_eq {n : ℕ} (a : Fin n → ℚ) (v : ℚ) (k : ℕ) (hk : k ≤ n)
    (hlow : ∀ i : Fin n, i.1 < k → a i ≤ v)
    (hhigh : ∀ i : Fin n, k ≤ i.1 → v < a i) :
    countLE a v = k := by
  rw [countLE, show (Finset.univ.filter fun i : Fin n => a i ≤ v) =
      (Finset.univ.filter fun i : Fin n => i.1 < k) from ?_, card_filter_val_lt k hk]
  ext i
  simp only [Finset.mem_filter, Finset.mem_univ, true_and]
  constructor
  · intro hi
    by_contra hik
    exact absurd hi (not_le.mpr (hhigh i (by omega)))
  · exact hlow i

/-- The `searchsorted left` count on a monotone array with the first `k`
entries below `v` and the rest at least it. -/
theorem countLT_eq {n : ℕ} (a : Fin n → ℚ) (v : ℚ) (k : ℕ) (hk : k ≤ n)
    (hlow : ∀ i : Fin n, i.1 < k → a i < v)
    (hhigh : ∀ i : Fin n, k ≤ i.1 → v ≤ a i) :
    countLT a v = k := by
  rw [countLT, show (Finset.univ.filter fun i : Fin n => a i < v) =
      (Finset.univ.filter fun i : Fin n => i.1 < k) from ?_, card_filter_val_lt k hk]
  ext i
  simp only [Finset.mem_filter, Finset.mem_univ, true_and]
  constructor
  · intro hi
    by_contra hik
    exact absurd hi (not_lt.mpr (hhigh i (by omega)))
  · exact hlow i

/-- Monotonicity from adjacent steps on `Fin n`. -/
theorem monoOfAdjacent {n : ℕ} (f : Fin n → ℚ)
    (hadj : ∀ i : Fin (n - 1), f (castL i) ≤ f (castR i)) :
    ∀ i j : Fin n, i.1 ≤ j.1 → f i ≤ f j := by
  have hstep : ∀ (k : ℕ) (a : ℕ) (h : a + k < n), f ⟨a, by omega⟩ ≤ f ⟨a + k, h⟩ := by
    intro k
    induction k with
    | zero => intro a h; exact le_refl _
    | succ m ih =>
      intro a h
      have h1 : a + m < n := by omega
      have h2 : a + m < n - 1 := by omega
      refine le_trans (ih a h1) ?_
      have := hadj ⟨a + m, h2⟩
      simpa [castL, castR] using this
  intro i j hij
  have h := hstep (j.1 - i.1) i.1 (by omega)
  have hj : (⟨i.1 + (j.1 - i.1), by omega⟩ : Fin n) = j :=
    Fin.ext (show i.1 + (j.1 - i.1) = j.1 from by omega)
  rw [hj] at h
  have hi : (⟨i.1, by omega⟩ : Fin n) = i := Fin.ext rfl
  rw [hi] at h
  exact h

/-- On a monotone array a positive right-count means the entry just before
the insertion point is at most `v`. -/
theorem le_of_countLE_pos {n : ℕ} (a : Fin n → ℚ) (v : ℚ)
    (mono : ∀ i j : Fin n, i.1 ≤ j.1 → a i ≤ a j) (h : 1 ≤ countLE a v) :
    a ⟨countLE a v - 1, prevBound a v h⟩ ≤ v := by
  by_contra hc
  push_neg at hc
  have hsub : (Finset.univ.filter fun i : Fin n => a i ≤ v) ⊆
      Finset.univ.filter fun i : Fin n => i.1 < countLE a v - 1 := by
    intro i hi
    simp only [Finset.mem_filter, Finset.mem_univ, true_and] at hi ⊢
    by_contra hik
    have : a ⟨countLE a v - 1, prevBound a v h⟩ ≤ a i :=
      mono _ _ (show countLE a v - 1 ≤ i.1 from by omega)
    exact absurd hi (not_le.mpr (lt_of_lt_of_le hc this))
  have hcard := Finset.card_le_card hsub
  rw [card_filter_val_lt (countLE a v - 1) (by have := prevBound a v h; omega)] at hcard
  have : countLE a v ≤ countLE a v - 1 := hcard
  omega

/-- On a monotone array the left-count position (when in range) holds an
entry at least `v`. -/
theorem ge_of_countLT {n : ℕ} (a : Fin n → ℚ) (v : ℚ)
    (mono : ∀ i j : Fin n, i.1 ≤ j.1 → a i ≤ a j) (h : countLT a v < n) :
    v ≤ a ⟨countLT a v, h⟩ := by
  by_contra hc
  push_neg at hc
  have hsub : (Finset.univ.filter fun i : Fin n => i.1 < countLT a v + 1) ⊆
      Finset.univ.filter fun i : Fin n => a i < v := by
    intro i hi
    simp only [Finset.mem_filter, Finset.mem_univ, true_and] at hi ⊢
    exact lt_of_le_of_lt (mono i ⟨countLT a v, h⟩ (show i.1 ≤ countLT a v from by omega)) hc
  have hcard := Finset.card_le_card hsub
  rw [card_filter_val_lt (countLT a v + 1) (by omega)] at hcard
  have : countLT a v + 1 ≤ countLT a v := hcard
  omega

end Mpspline

namespace Mpspline

/-- C3: pointwise description of the continuous estimate before clipping,
for a sorted non-overlapping profile: inside measured interval `i` the
value is the quadratic `alfa[i] + b0[i]*(d-top[i]) + gamma[i]*(d-top[i])²`;
in a gap between interval `p` and the next interval the value is the
linear continuation `phi + b1[p]*(d - bottom[p])` with
`phi = alfa[p+1] - b1[p]*(top[p+1] - bottom[p])`; and at a unit depth in
no interval and no gap the entry is NaN. -/
theorem C3_pointwise_prediction {n : ℕ} (top bottom alfa b0 b1 gamma : Fin n → ℚ)
    (maxd : ℕ)
    (hth : ∀ i : Fin n, top i < bottom i)
    (hsort : ∀ i : Fin (n - 1), bottom (castL i) ≤ top (castR i))
    (d : ℕ) (hd : d < maxd) :
    (∀ i : Fin n, top i ≤ (d : ℚ) → (d : ℚ) < bottom i →
      (est1cmRaw top bottom alfa b0 b1 gamma maxd).get? d =
        some (some (alfa i + b0 i * ((d : ℚ) - top i) + gamma i * ((d : ℚ) - top i) ^ 2))) ∧
    (∀ p : Fin (n - 1), bottom (castL p) ≤ (d : ℚ) → (d : ℚ) < top (castR p) →
      (est1cmRaw top bottom alfa b0 b1 gamma maxd).get? d =
        some (some (alfa (castR p) - b1 (castL p) * (top (castR p) - bottom (castL p)) +
          b1 (castL p) * ((d : ℚ) - bottom (castL p))))) ∧
    ((∀ i : Fin n, ¬(top i ≤ (d : ℚ) ∧ (d : ℚ) < bottom i)) →
     (∀ p : Fin (n - 1), ¬(bottom (castL p) ≤ (d : ℚ) ∧ (d : ℚ) < top (castR p))) →
      (est1cmRaw top bottom alfa b0 b1 gamma maxd).get? d = some none) := by
  have topLe : ∀ i j : Fin n, i.1 ≤ j.1 → top i ≤ top j :=
    monoOfAdjacent top fun i => le_of_lt (lt_of_lt_of_le (hth (castL i)) (hsort i))
  have botLe : ∀ i j : Fin n, i.1 ≤ j.1 → bottom i ≤ bottom j :=
    monoOfAdjacent bottom fun i => le_trans (hsort i) (le_of_lt (hth (castR i)))
  have hget : (est1cmRaw top bottom alfa b0 b1 gamma maxd).get? d =
      some (predictAt top bottom alfa b0 b1 gamma (d : ℚ)) := by
    rw [est1cmRaw, List.get?_map, List.get?_range hd]
    rfl
  refine ⟨?_, ?_, ?_⟩
  · -- (a) inside a measured interval
    intro i hti hbi
    have hhigh : ∀ j : Fin n, i.1 + 1 ≤ j.1 → (d : ℚ) < top j := by
      intro j hj
      have hi1 : i.1 < n - 1 := by have := j.2; omega
      have hsi := hsort ⟨i.1, hi1⟩
      have hcl : castL (⟨i.1, hi1⟩ : Fin (n - 1)) = i := Fin.ext rfl
      rw [hcl] at hsi
      have htt : top (castR (⟨i.1, hi1⟩ : Fin (n - 1))) ≤ top j :=
        topLe _ _ (show i.1 + 1 ≤ j.1 from hj)
      exact lt_of_lt_of_le hbi (le_trans hsi htt)
    have hc : countLE top (d : ℚ) = i.1 + 1 :=
      countLE_eq top (d : ℚ) (i.1 + 1) (by have := i.2; omega)
        (fun j hj => le_trans (topLe j i (by omega)) hti) hhigh
    have hpos : 1 ≤ countLE top (d : ℚ) := by rw [hc]; omega
    have hmk : ∀ pf : countLE top (d : ℚ) - 1 < n,
        (⟨countLE top (d : ℚ) - 1, pf⟩ : Fin n) = i :=
      fun pf => Fin.ext (show countLE top (d : ℚ) - 1 = i.1 by rw [hc]; omega)
    rw [hget, predictAt, dif_pos hpos]
    simp only []
    rw [hmk, if_pos hbi]
  · -- (b) in a gap
    intro p hbp htp
    have hpn : p.1 + 1 ≤ n := by have := p.2; omega
    have htopld : top (castL p) < (d : ℚ) := lt_of_lt_of_le (hth (castL p)) hbp
    have hcLE : countLE top (d : ℚ) = p.1 + 1 :=
      countLE_eq top (d : ℚ) (p.1 + 1) hpn
        (fun j hj => le_trans (topLe j (castL p) (by
          show j.1 ≤ p.1
          omega)) (le_of_lt htopld))
        (fun j hj => lt_of_lt_of_le htp (topLe (castR p) j (show p.1 + 1 ≤ j.1 from hj)))
    have hcB : countLE bottom (d : ℚ) = p.1 + 1 :=
      countLE_eq bottom (d : ℚ) (p.1 + 1) hpn
        (fun j hj => le_trans (botLe j (castL p) (by
          show j.1 ≤ p.1
          omega)) hbp)
        (fun j hj => lt_of_lt_of_le (lt_of_lt_of_le htp (le_of_lt (hth (castR p))))
          (botLe (castR p) j (show p.1 + 1 ≤ j.1 from hj)))
    have hcT : countLT top (d : ℚ) = p.1 + 1 :=
      countLT_eq top (d : ℚ) (p.1 + 1) hpn
        (fun j hj => lt_of_le_of_lt (topLe j (castL p) (by
          show j.1 ≤ p.1
          omega)) htopld)
        (fun j hj => le_trans (le_of_lt htp) (topLe (castR p) j (show p.1 + 1 ≤ j.1 from hj)))
    have hpos : 1 ≤ countLE top (d : ℚ) := by rw [hcLE]; omega
    have hmk : ∀ pf : countLE top (d : ℚ) - 1 < n,
        (⟨countLE top (d : ℚ) - 1, pf⟩ : Fin n) = castL p :=
      fun pf => Fin.ext (show countLE top (d : ℚ) - 1 = p.1 by rw [hcLE]; omega)
    have hg1 : 1 ≤ countLE bottom (d : ℚ) := by rw [hcB]; omega
    have hg2 : countLT top (d : ℚ) < n := by rw [hcT]; have := p.2; omega
    have hmkp : ∀ pf : countLE bottom (d : ℚ) - 1 < n,
        (⟨countLE bottom (d : ℚ) - 1, pf⟩ : Fin n) = castL p :=
      fun pf => Fin.ext (show countLE bottom (d : ℚ) - 1 = p.1 by rw [hcB]; omega)
    have hmkq : ∀ pf : countLT top (d : ℚ) < n,
        (⟨countLT top (d : ℚ), pf⟩ : Fin n) = castR p :=
      fun pf => Fin.ext (show countLT top (d : ℚ) = p.1 + 1 from hcT)
    rw [hget, predictAt, dif_pos hpos]
    simp only []
    rw [hmk, if_neg (not_lt.mpr hbp), gapValue, dif_pos ⟨hg1, hg2⟩]
    simp only []
    rw [hmkp, hmkq]
  · -- (c) outside every interval and gap
    intro hno1 hno2
    have hgap : gapValue top bottom alfa b1 (d : ℚ) = none := by
      rw [gapValue]
      by_cases hg : 1 ≤ countLE bottom (d : ℚ) ∧ countLT top (d : ℚ) < n
      · exfalso
        have hcount : countLT top (d : ℚ) = countLE bottom (d : ℚ) := by
          rw [countLT, countLE]
          congr 1
          ext i
          simp only [Finset.mem_filter, Finset.mem_univ, true_and]
          constructor
          · intro hti
            by_contra hbi
            push_neg at hbi
            exact hno1 i ⟨le_of_lt hti, hbi⟩
          · intro hbi
            exact lt_of_lt_of_le (hth i) hbi
        obtain ⟨h1, h2⟩ := hg
        have hple : bottom ⟨countLE bottom (d : ℚ) - 1, prevBound bottom (d : ℚ) h1⟩ ≤ (d : ℚ) :=
          le_of_countLE_pos bottom (d : ℚ) botLe h1
        have hqge : (d : ℚ) ≤ top ⟨countLT top (d : ℚ), h2⟩ := ge_of_countLT top (d : ℚ) topLe h2
        rcases eq_or_lt_of_le hqge with heq | hlt
        · exact hno1 ⟨countLT top (d : ℚ), h2⟩
            ⟨le_of_eq heq.symm, lt_of_le_of_lt (le_of_eq heq) (hth _)⟩
        · have hq1 : 1 ≤ countLT top (d : ℚ) := by rw [hcount]; exact h1
          have hpn : countLT top (d : ℚ) - 1 < n - 1 := by omega
          refine hno2 ⟨countLT top (d : ℚ) - 1, hpn⟩ ⟨?_, ?_⟩
          · have hcl : castL (⟨countLT top (d : ℚ) - 1, hpn⟩ : Fin (n - 1)) =
                ⟨countLE bottom (d : ℚ) - 1, prevBound bottom (d : ℚ) h1⟩ :=
              Fin.ext (show countLT top (d : ℚ) - 1 = countLE bottom (d : ℚ) - 1 by
                rw [hcount])
            rw [hcl]
            exact hple
          · have hcr : castR (⟨countLT top (d : ℚ) - 1, hpn⟩ : Fin (n - 1)) =
                ⟨countLT top (d : ℚ), h2⟩ :=
              Fin.ext (show countLT top (d : ℚ) - 1 + 1 = countLT top (d : ℚ) by omega)
            rw [hcr]
            exact hlt
      · rw [dif_neg hg]
    rw [hget, predictAt]
    by_cases hpos : 1 ≤ countLE top (d : ℚ)
    · rw [dif_pos hpos]
      simp only []
      have hin : top ⟨countLE top (d : ℚ) - 1, prevBound top (d : ℚ) hpos⟩ ≤ (d : ℚ) :=
        le_of_countLE_pos top (d : ℚ) topLe hpos
      by_cases hbt : (d : ℚ) < bottom ⟨countLE top (d : ℚ) - 1, prevBound top (d : ℚ) hpos⟩
      · exact absurd ⟨hin, hbt⟩ (hno1 _)
      · rw [if_neg hbt, hgap]
    · rw [dif_neg hpos, hgap]

/-- Witness for C3 on a two-interval profile `(0,10)` and `(20,30)` (a gap
between depths 10 and 20) at depth 5 below `max_depth` 31. -/
theorem C3_witness :
    ((∀ i : Fin 2, (![0, 20] : Fin 2 → ℚ) i < (![10, 30] : Fin 2 → ℚ) i) ∧
     (∀ i : Fin (2 - 1),
       (![10, 30] : Fin 2 → ℚ) (castL i) ≤ (![0, 20] : Fin 2 → ℚ) (castR i)) ∧
     (5 : ℕ) < 31) ∧
    ((∀ i : Fin 2, (![0, 20] : Fin 2 → ℚ) i ≤ ((5 : ℕ) : ℚ) →
        ((5 : ℕ) : ℚ) < (![10, 30] : Fin 2 → ℚ) i →
      (est1cmRaw ![0, 20] ![10, 30] ![1, 2] ![3, 4] ![5, 6] ![7, 8] 31).get? 5 =
        some (some ((![1, 2] : Fin 2 → ℚ) i +
          (![3, 4] : Fin 2 → ℚ) i * (((5 : ℕ) : ℚ) - (![0, 20] : Fin 2 → ℚ) i) +
          (![7, 8] : Fin 2 → ℚ) i * (((5 : ℕ) : ℚ) - (![0, 20] : Fin 2 → ℚ) i) ^ 2))) ∧
    (∀ p : Fin (2 - 1), (![10, 30] : Fin 2 → ℚ) (castL p) ≤ ((5 : ℕ) : ℚ) →
        ((5 : ℕ) : ℚ) < (![0, 20] : Fin 2 → ℚ) (castR p) →
      (est1cmRaw ![0, 20] ![10, 30] ![1, 2] ![3, 4] ![5, 6] ![7, 8] 31).get? 5 =
        some (some ((![1, 2] : Fin 2 → ℚ) (castR p) -
          (![5, 6] : Fin 2 → ℚ) (castL p) *
            ((![0, 20] : Fin 2 → ℚ) (castR p) - (![10, 30] : Fin 2 → ℚ) (castL p)) +
          (![5, 6] : Fin 2 → ℚ) (castL p) *
            (((5 : ℕ) : ℚ) - (![10, 30] : Fin 2 → ℚ) (castL p))))) ∧
    ((∀ i : Fin 2, ¬((![0, 20] : Fin 2 → ℚ) i ≤ ((5 : ℕ) : ℚ) ∧
        ((5 : ℕ) : ℚ) < (![10, 30] : Fin 2 → ℚ) i)) →
     (∀ p : Fin (2 - 1), ¬((![10, 30] : Fin 2 → ℚ) (castL p) ≤ ((5 : ℕ) : ℚ) ∧
        ((5 : ℕ) : ℚ) < (![0, 20] : Fin 2 → ℚ) (castR p))) →
      (est1cmRaw ![0, 20] ![10, 30] ![1, 2] ![3, 4] ![5, 6] ![7, 8] 31).get? 5 =
        some none)) :=
  ⟨⟨by decide, by decide, by decide⟩,
   C3_pointwise_prediction ![0, 20] ![10, 30] ![1, 2] ![3, 4] ![5, 6] ![7, 8] 31
     (by decide) (by decide) 5 (by decide)⟩

end Mpspline

namespace Mpspline

/-! Dict-operation lemmas for the `_standardize_horizons` model. -/

/-- Lookup on a cons cell. -/
theorem lookupKey_cons (k : String) (p : String × HV) (t : Horizon) :
    lookupKey k (p :: t) = if p.1 = k then some p.2 else lookupKey k t := by
  rw [lookupKey, List.find?_cons]
  by_cases h : p.1 = k
  · simp [h]
  · simp [h, lookupKey]

/-- A key that no entry carries looks up to nothing. -/
theorem lookupKey_eq_none_iff (k : String) (l : Horizon) :
    lookupKey k l = none ↔ ∀ p ∈ l, p.1 ≠ k := by
  rw [lookupKey, Option.map_eq_none']
  rw [List.find?_eq_none]
  constructor
  · intro h p hp
    have := h p hp
    simpa using this
  · intro h p hp
    simpa using h p hp

/-- Erasing a different key leaves a lookup unchanged. -/
theorem lookup_eraseKey_ne {k1 k : String} (hne : k1 ≠ k) (l : Horizon) :
    lookupKey k (eraseKey k1 l) = lookupKey k l := by
  induction l with
  | nil => rfl
  | cons p t ih =>
    by_cases hp : p.1 = k1
    · rw [show eraseKey k1 (p :: t) = t from by simp [eraseKey, List.eraseP_cons, hp],
        lookupKey_cons, if_neg (by rw [hp]; exact hne)]
    · rw [show eraseKey k1 (p :: t) = p :: eraseKey k1 t from by
        simp [eraseKey, List.eraseP_cons, hp], lookupKey_cons, lookupKey_cons, ih]

/-- With pairwise distinct keys, erasing a key removes it entirely. -/
theorem lookup_eraseKey_self (k : String) (l : Horizon) (hnd : (hzKeys l).Nodup) :
    lookupKey k (eraseKey k l) = none := by
  induction l with
  | nil => rfl
  | cons p t ih =>
    rw [hzKeys, List.map_cons, List.nodup_cons] at hnd
    by_cases hp : p.1 = k
    · rw [show eraseKey k (p :: t) = t from by simp [eraseKey, List.eraseP_cons, hp]]
      rw [lookupKey_eq_none_iff]
      intro q hq hqk
      apply hnd.1
      have hmem : q.1 ∈ List.map (fun r => r.1) t := List.mem_map_of_mem _ hq
      rwa [hqk, ← hp] at hmem
    · rw [show eraseKey k (p :: t) = p :: eraseKey k t from by
        simp [eraseKey, List.eraseP_cons, hp], lookupKey_cons, if_neg hp]
      exact ih hnd.2

/-- Setting a key below a non-matching head commutes with the cons. -/
theorem setKey_cons_ne {p : String × HV} {k1 : String} (hp : p.1 ≠ k1) (v : HV)
    (t : Horizon) : setKey k1 v (p :: t) = p :: setKey k1 v t := by
  rw [setKey, setKey, List.find?_cons, show (decide (p.1 = k1)) = false from by simp [hp]]
  by_cases hf : (t.find? fun q => q.1 = k1).isSome
  · rw [if_pos hf, if_pos hf, List.map_cons, show (if p.1 = k1 then (k1, v) else p) = p
      from if_neg hp]
  · rw [if_neg hf, if_neg hf, List.cons_append]

/-- Replacing the entries of a key does not disturb other lookups. -/
theorem lookup_map_replace {k k1 : String} (hne : ¬ k1 = k) (v : HV) (l : Horizon) :
    lookupKey k (l.map fun p => if p.1 = k1 then (k1, v) else p) = lookupKey k l := by
  induction l with
  | nil => rfl
  | cons p t ih =>
    by_cases hp : p.1 = k1
    · rw [List.map_cons, if_pos hp, lookupKey_cons, lookupKey_cons,
        if_neg (show ¬((k1, v) : String × HV).1 = k from hne),
        if_neg (fun hh => hne (hp.symm.trans hh)), ih]
    · rw [List.map_cons, if_neg hp, lookupKey_cons, lookupKey_cons, ih]

/-- Replacing the entries of a present key makes its lookup the new value. -/
theorem lookup_map_replace_self {k1 : String} (v : HV) (l : Horizon)
    (hsome : (l.find? fun p => p.1 = k1).isSome) :
    lookupKey k1 (l.map fun p => if p.1 = k1 then (k1, v) else p) = some v := by
  induction l with
  | nil => simp at hsome
  | cons p t ih =>
    by_cases hp : p.1 = k1
    · rw [List.map_cons, if_pos hp, lookupKey_cons,
        if_pos (show ((k1, v) : String × HV).1 = k1 from rfl)]
    · rw [List.map_cons, if_neg hp, lookupKey_cons, if_neg hp]
      apply ih
      rw [List.find?_cons] at hsome
      simpa [hp] using hsome

/-- Lookup in a dict extended with a fresh key at the end. -/
theorem lookup_append_single (k k1 : String) (v : HV) (l : Horizon)
    (hf : ¬ (l.find? fun p => p.1 = k1).isSome) :
    lookupKey k (l ++ [(k1, v)]) = if k1 = k then some v else lookupKey k l := by
  induction l with
  | nil =>
    rw [List.nil_append, lookupKey_cons]
  | cons p t ih =>
    rw [List.find?_cons] at hf
    by_cases hpp : p.1 = k1
    · exact absurd (by simp [hpp]) hf
    · have hft : ¬ (t.find? fun q => q.1 = k1).isSome := by simpa [hpp] using hf
      rw [List.cons_append, lookupKey_cons, lookupKey_cons]
      by_cases hp : p.1 = k
      · rw [if_pos hp, if_pos hp,
          if_neg (show ¬ k1 = k from fun hh => hpp (hp.trans hh.symm))]
      · rw [if_neg hp, if_neg hp, ih hft]

/-- Lookup after a dict assignment: the assigned key reads the new value,
every other key is untouched. -/
theorem lookup_setKey (k k1 : String) (v : HV) (l : Horizon) :
    lookupKey k (setKey k1 v l) = if k1 = k then some v else lookupKey k l := by
  by_cases hf : (l.find? fun p => p.1 = k1).isSome
  · rw [setKey, if_pos hf]
    by_cases hk : k1 = k
    · subst hk
      rw [if_pos rfl]
      exact lookup_map_replace_self v l hf
    · rw [if_neg hk]
      exact lookup_map_replace hk v l
  · rw [setKey, if_neg hf]
    exact lookup_append_single k k1 v l hf

end Mpspline

namespace Mpspline

/-- A lookup misses exactly when the key is not among the dict keys. -/
theorem lookupKey_eq_none_iff_not_mem (k : String) (l : Horizon) :
    lookupKey k l = none ↔ k ∉ hzKeys l := by
  rw [lookupKey_eq_none_iff, hzKeys]
  simp only [List.mem_map, not_exists, not_and, Prod.forall, Prod.exists]

/-- After aliasing, no entry carries the key `upper`. -/
theorem lookup_alias_upper (h : Horizon) : lookupKey "upper" (aliasKeys h) = none := by
  rw [lookupKey_eq_none_iff]
  intro p hp
  rw [aliasKeys] at hp
  obtain ⟨q, hq, rfl⟩ := List.mem_map.mp hp
  by_cases h1 : q.1 = "upper"
  · rw [if_pos h1]
    exact (by decide : ¬("top" : String) = "upper")
  · rw [if_neg h1]
    by_cases h2 : q.1 = "lower"
    · rw [if_pos h2]
      exact (by decide : ¬("bottom" : String) = "upper")
    · rw [if_neg h2]
      exact h1

/-- After aliasing, no entry carries the key `lower`. -/
theorem lookup_alias_lower (h : Horizon) : lookupKey "lower" (aliasKeys h) = none := by
  rw [lookupKey_eq_none_iff]
  intro p hp
  rw [aliasKeys] at hp
  obtain ⟨q, hq, rfl⟩ := List.mem_map.mp hp
  by_cases h1 : q.1 = "upper"
  · rw [if_pos h1]
    exact (by decide : ¬("top" : String) = "lower")
  · rw [if_neg h1]
    by_cases h2 : q.1 = "lower"
    · rw [if_pos h2]
      exact (by decide : ¬("bottom" : String) = "lower")
    · rw [if_neg h2]
      exact h2

/-- When the input has no `top` key, `top` on the aliased dict reads what
`upper` read on the original. -/
theorem lookup_alias_top (h : Horizon) (htop : lookupKey "top" h = none) :
    lookupKey "top" (aliasKeys h) = lookupKey "upper" h := by
  induction h with
  | nil => rfl
  | cons p t ih =>
    rw [lookupKey_cons] at htop
    by_cases h0 : p.1 = "top"
    · rw [if_pos h0] at htop
      exact absurd htop (by simp)
    · rw [if_neg h0] at htop
      rw [aliasKeys, List.map_cons]
      by_cases h1 : p.1 = "upper"
      · rw [if_pos h1, lookupKey_cons, if_pos (show ("top", p.2).1 = "top" from rfl),
          lookupKey_cons, if_pos h1]
      · rw [if_neg h1]
        by_cases h2 : p.1 = "lower"
        · rw [if_pos h2, lookupKey_cons,
            if_neg (show ¬("bottom", p.2).1 = "top" from (by decide : ¬("bottom" : String) = "top")),
            lookupKey_cons, if_neg h1]
          exact ih htop
        · rw [if_neg h2, lookupKey_cons, if_neg h0, lookupKey_cons, if_neg h1]
          exact ih htop

/-- When the input has no `bottom` key, `bottom` on the aliased dict reads
what `lower` read on the original. -/
theorem lookup_alias_bottom (h : Horizon) (hbot : lookupKey "bottom" h = none) :
    lookupKey "bottom" (aliasKeys h) = lookupKey "lower" h := by
  induction h with
  | nil => rfl
  | cons p t ih =>
    rw [lookupKey_cons] at hbot
    by_cases h0 : p.1 = "bottom"
    · rw [if_pos h0] at hbot
      exact absurd hbot (by simp)
    · rw [if_neg h0] at hbot
      rw [aliasKeys, List.map_cons]
      by_cases h1 : p.1 = "upper"
      · rw [if_pos h1, lookupKey_cons,
          if_neg (show ¬("top", p.2).1 = "bottom" from (by decide : ¬("top" : String) = "bottom")),
          lookupKey_cons, if_neg (show ¬ p.1 = "lower" from by rw [h1]; decide)]
        exact ih hbot
      · rw [if_neg h1]
        by_cases h2 : p.1 = "lower"
        · rw [if_pos h2, lookupKey_cons, if_pos (show ("bottom", p.2).1 = "bottom" from rfl),
            lookupKey_cons, if_pos h2]
        · rw [if_neg h2, lookupKey_cons, if_neg h0, lookupKey_cons, if_neg h2]
          exact ih hbot

/-- Aliasing does not disturb lookups of unrelated keys. -/
theorem lookup_alias_other (h : Horizon) (k : String) (h1 : k ≠ "top") (h2 : k ≠ "bottom")
    (h3 : k ≠ "upper") (h4 : k ≠ "lower") :
    lookupKey k (aliasKeys h) = lookupKey k h := by
  induction h with
  | nil => rfl
  | cons p t ih =>
    rw [aliasKeys, List.map_cons, lookupKey_cons, lookupKey_cons]
    by_cases hu : p.1 = "upper"
    · rw [if_pos hu, if_neg (show ¬("top", p.2).1 = k from fun hh => h1 hh.symm),
        if_neg (fun hh => h3 (hu.symm.trans hh).symm)]
      exact ih
    · rw [if_neg hu]
      by_cases hl : p.1 = "lower"
      · rw [if_pos hl, if_neg (show ¬("bottom", p.2).1 = k from fun hh => h2 hh.symm),
          if_neg (fun hh => h4 (hl.symm.trans hh).symm)]
        exact ih
      · rw [if_neg hl]
        by_cases hpk : p.1 = k
        · rw [if_pos hpk, if_pos hpk]
        · rw [if_neg hpk, if_neg hpk]
          exact ih

/-- Erasing a key preserves distinctness of the keys. -/
theorem hzKeys_eraseKey_nodup (k : String) (l : Horizon) (hnd : (hzKeys l).Nodup) :
    (hzKeys (eraseKey k l)).Nodup := by
  rw [hzKeys, eraseKey]
  exact List.Nodup.sublist (List.Sublist.map (fun p => p.1) (List.eraseP_sublist l)) hnd

/-- A dict assignment preserves distinctness of the keys. -/
theorem hzKeys_setKey_nodup (k : String) (v : HV) (l : Horizon)
    (hnd : (hzKeys l).Nodup) : (hzKeys (setKey k v l)).Nodup := by
  rw [setKey]
  by_cases hf : (l.find? fun p => p.1 = k).isSome
  · rw [if_pos hf]
    have hkeys : hzKeys (l.map fun p => if p.1 = k then (k, v) else p) = hzKeys l := by
      rw [hzKeys, hzKeys, List.map_map]
      apply List.map_congr_left
      intro p hp
      by_cases hpk : p.1 = k
      · simp [hpk]
      · simp [hpk]
    rw [hkeys]
    exact hnd
  · rw [if_neg hf]
    rw [hzKeys, List.map_append, List.nodup_append]
    refine ⟨hnd, List.nodup_singleton k, ?_⟩
    intro a ha hb
    have hbk : a = k := by simpa using hb
    have hnone : lookupKey k l = none := by
      rw [lookupKey, Option.map_eq_none']
      exact Option.not_isSome_iff_eq_none.mp hf
    exact (lookupKey_eq_none_iff_not_mem k l).mp hnone (hbk ▸ ha)

/-- Aliasing preserves distinctness of the keys when the alias keys are
absent from the input. -/
theorem hzKeys_alias_nodup (h : Horizon) (hnd : (hzKeys h).Nodup)
    (htop : lookupKey "top" h = none) (hbot : lookupKey "bottom" h = none) :
    (hzKeys (aliasKeys h)).Nodup := by
  induction h with
  | nil => exact List.nodup_nil
  | cons p t ih =>
    rw [lookupKey_cons] at htop hbot
    by_cases h0 : p.1 = "top"
    · rw [if_pos h0] at htop
      exact absurd htop (by simp)
    by_cases h0b : p.1 = "bottom"
    · rw [if_pos h0b] at hbot
      exact absurd hbot (by simp)
    rw [if_neg h0] at htop
    rw [if_neg h0b] at hbot
    rw [hzKeys, List.map_cons, List.nodup_cons] at hnd
    rw [aliasKeys, List.map_cons, hzKeys, List.map_cons, List.nodup_cons]
    have htail : (hzKeys (aliasKeys t)).Nodup := ih hnd.2 htop hbot
    refine ⟨?_, htail⟩
    by_cases hu : p.1 = "upper"
    · rw [if_pos hu]
      intro hmem
      have : lookupKey "top" (aliasKeys t) = none := by
        rw [lookup_alias_top t htop, lookupKey_eq_none_iff_not_mem]
        rw [hu] at hnd
        exact hnd.1
      exact (lookupKey_eq_none_iff_not_mem _ _).mp this hmem
    · rw [if_neg hu]
      by_cases hl : p.1 = "lower"
      · rw [if_pos hl]
        intro hmem
        have : lookupKey "bottom" (aliasKeys t) = none := by
          rw [lookup_alias_bottom t hbot, lookupKey_eq_none_iff_not_mem]
          rw [hl] at hnd
          exact hnd.1
        exact (lookupKey_eq_none_iff_not_mem _ _).mp this hmem
      · rw [if_neg hl]
        intro hmem
        have : lookupKey p.1 (aliasKeys t) = none := by
          rw [lookup_alias_other t p.1 h0 h0b hu hl, lookupKey_eq_none_iff_not_mem]
          exact hnd.1
        exact (lookupKey_eq_none_iff_not_mem _ _).mp this hmem

end Mpspline

namespace Mpspline

/-- The `hzname` stage respects lookup-equivalence of dicts with distinct
keys. -/
theorem hznameStage_congr (i : ℕ) (h1 h2 : Horizon)
    (hnd1 : (hzKeys h1).Nodup) (hnd2 : (hzKeys h2).Nodup)
    (heq : ∀ k, lookupKey k h1 = lookupKey k h2) :
    ∀ k, lookupKey k (hznameStage i h1) = lookupKey k (hznameStage i h2) := by
  have hsetcase : ∀ (knm : String) (s : String), (hzKeys h1).Nodup → (hzKeys h2).Nodup →
      ∀ k, lookupKey k (setKey "hzname" (HV.str s) (eraseKey knm h1)) =
        lookupKey k (setKey "hzname" (HV.str s) (eraseKey knm h2)) := by
    intro knm s hn1 hn2 k
    rw [lookup_setKey, lookup_setKey]
    by_cases hk : "hzname" = k
    · rw [if_pos hk, if_pos hk]
    · rw [if_neg hk, if_neg hk]
      by_cases hv : knm = k
      · subst hv
        rw [lookup_eraseKey_self _ _ hn1, lookup_eraseKey_self _ _ hn2]
      · rw [lookup_eraseKey_ne hv, lookup_eraseKey_ne hv]
        exact heq k
  have hdefault : ∀ s : String, ∀ k,
      lookupKey k (setKey "hzname" (HV.str s) h1) =
        lookupKey k (setKey "hzname" (HV.str s) h2) := by
    intro s k
    rw [lookup_setKey, lookup_setKey]
    by_cases hk : "hzname" = k
    · rw [if_pos hk, if_pos hk]
    · rw [if_neg hk, if_neg hk]
      exact heq k
  intro k
  rw [hznameStage, hznameStage, heq "hzname", heq "name", heq "label"]
  by_cases hz : (lookupKey "hzname" h2).isSome
  · rw [if_pos hz, if_pos hz]
    exact heq k
  · rw [if_neg hz, if_neg hz]
    cases hn : lookupKey "name" h2 with
    | some v =>
      cases v with
      | str s =>
        simp only [hn]
        exact hsetcase "name" s hnd1 hnd2 k
      | num q =>
        simp only [hn]
        cases hl : lookupKey "label" h2 with
        | some w =>
          cases w with
          | str s =>
            simp only [hl]
            exact hsetcase "label" s hnd1 hnd2 k
          | num r =>
            simp only [hl]
            exact hdefault _ k
        | none =>
          simp only [hl]
          exact hdefault _ k
    | none =>
      simp only [hn]
      cases hl : lookupKey "label" h2 with
      | some w =>
        cases w with
        | str s =>
          simp only [hl]
          exact hsetcase "label" s hnd1 hnd2 k
        | num r =>
          simp only [hl]
          exact hdefault _ k
      | none =>
        simp only [hl]
        exact hdefault _ k

/-- Standardizing a horizon whose depth boundaries use the alias keys
`top`/`bottom` produces, up to key lookup, the same dict as standardizing
the horizon with the standard keys `upper`/`lower`. -/
theorem stdOne_alias (i : ℕ) (h : Horizon)
    (hnd : (hzKeys h).Nodup)
    (hupper : (lookupKey "upper" h).isSome)
    (hlower : (lookupKey "lower" h).isSome)
    (htop : lookupKey "top" h = none)
    (hbot : lookupKey "bottom" h = none) :
    ∀ k, lookupKey k (stdOne i (aliasKeys h)) = lookupKey k (stdOne i h) := by
  obtain ⟨vU, hvU⟩ := Option.isSome_iff_exists.mp hupper
  obtain ⟨vL, hvL⟩ := Option.isSome_iff_exists.mp hlower
  have hB : stdOne i h = hznameStage i h := by
    simp only [stdOne, hupper, hlower, if_true]
  have hA1none : lookupKey "upper" (aliasKeys h) = none := lookup_alias_upper h
  have hA1topv : lookupKey "top" (aliasKeys h) = some vU := by
    rw [lookup_alias_top h htop]
    exact hvU
  have hndA : (hzKeys (aliasKeys h)).Nodup := hzKeys_alias_nodup h hnd htop hbot
  have hlowA1 : lookupKey "lower"
      (setKey "upper" vU (eraseKey "top" (aliasKeys h))) = none := by
    rw [lookup_setKey, if_neg (by decide : ¬("upper" : String) = "lower"),
      lookup_eraseKey_ne (by decide : ("top" : String) ≠ "lower")]
    exact lookup_alias_lower h
  have hbotA1 : lookupKey "bottom"
      (setKey "upper" vU (eraseKey "top" (aliasKeys h))) = some vL := by
    rw [lookup_setKey, if_neg (by decide : ¬("upper" : String) = "bottom"),
      lookup_eraseKey_ne (by decide : ("top" : String) ≠ "bottom"),
      lookup_alias_bottom h hbot]
    exact hvL
  have hA : stdOne i (aliasKeys h) = hznameStage i
      (setKey "lower" vL (eraseKey "bottom"
        (setKey "upper" vU (eraseKey "top" (aliasKeys h))))) := by
    rw [stdOne]
    simp only [hA1none, hA1topv, hlowA1, hbotA1, Option.isSome_none, Option.isSome_some,
      Bool.false_eq_true, if_false, if_true]
  have hndA1 : (hzKeys (setKey "upper" vU (eraseKey "top" (aliasKeys h)))).Nodup :=
    hzKeys_setKey_nodup _ _ _ (hzKeys_eraseKey_nodup _ _ hndA)
  have hndA2 : (hzKeys (setKey "lower" vL (eraseKey "bottom"
      (setKey "upper" vU (eraseKey "top" (aliasKeys h)))))).Nodup :=
    hzKeys_setKey_nodup _ _ _ (hzKeys_eraseKey_nodup _ _ hndA1)
  have hAk : ∀ k, lookupKey k (setKey "lower" vL (eraseKey "bottom"
      (setKey "upper" vU (eraseKey "top" (aliasKeys h))))) = lookupKey k h := by
    intro k
    rw [lookup_setKey]
    by_cases h1k : "lower" = k
    · subst h1k
      rw [if_pos rfl]
      exact hvL.symm
    · rw [if_neg h1k]
      by_cases h2k : "bottom" = k
      · subst h2k
        rw [lookup_eraseKey_self _ _ hndA1, hbot]
      · rw [lookup_eraseKey_ne h2k, lookup_setKey]
        by_cases h3k : "upper" = k
        · subst h3k
          rw [if_pos rfl]
          exact hvU.symm
        · rw [if_neg h3k]
          by_cases h4k : "top" = k
          · subst h4k
            rw [lookup_eraseKey_self _ _ hndA, htop]
          · rw [lookup_eraseKey_ne h4k]
            exact lookup_alias_other h k (fun hh => h4k hh.symm) (fun hh => h2k hh.symm)
              (fun hh => h3k hh.symm) (fun hh => h1k hh.symm)
  intro k
  rw [hA, hB]
  exact hznameStage_congr i _ h hndA2 hnd hAk k

end Mpspline

namespace Mpspline

/-- Lifting of `stdOne_alias` along the enumerated standardization loop. -/
theorem standardizeFrom_alias (i : ℕ) (hs : List Horizon)
    (hnd : ∀ h ∈ hs, (hzKeys h).Nodup)
    (hupper : ∀ h ∈ hs, (lookupKey "upper" h).isSome)
    (hlower : ∀ h ∈ hs, (lookupKey "lower" h).isSome)
    (htop : ∀ h ∈ hs, lookupKey "top" h = none)
    (hbot : ∀ h ∈ hs, lookupKey "bottom" h = none) :
    List.Forall₂ (fun g1 g2 => ∀ k, lookupKey k g1 = lookupKey k g2)
      (standardizeFrom i (hs.map aliasKeys)) (standardizeFrom i hs) := by
  induction hs generalizing i with
  | nil => constructor
  | cons h t ih =>
    rw [List.map_cons]
    show List.Forall₂ _ (stdOne i (aliasKeys h) :: standardizeFrom (i + 1) (t.map aliasKeys))
      (stdOne i h :: standardizeFrom (i + 1) t)
    refine List.Forall₂.cons
      (stdOne_alias i h (hnd h (List.mem_cons_self h t))
        (hupper h (List.mem_cons_self h t)) (hlower h (List.mem_cons_self h t))
        (htop h (List.mem_cons_self h t)) (hbot h (List.mem_cons_self h t)))
      (ih (i + 1) (fun g hg => hnd g (List.mem_cons_of_mem h hg))
        (fun g hg => hupper g (List.mem_cons_of_mem h hg))
        (fun g hg => hlower g (List.mem_cons_of_mem h hg))
        (fun g hg => htop g (List.mem_cons_of_mem h hg))
        (fun g hg => hbot g (List.mem_cons_of_mem h hg)))

/-- C10: for horizons that carry their depth boundaries under the standard
keys `upper`/`lower` (and no `top`/`bottom` keys), renaming those keys to
the aliases `top`/`bottom` and standardizing produces, entry by entry, a
dict with exactly the same key lookups as standardizing the original
horizons.  Downstream, `mpspline_one` consumes the standardized horizons
only through key lookups and order-insensitive key enumeration
(`sorted(properties)`), so the two input forms produce the same result. -/
theorem C10_alias_keys_equivalent (hs : List Horizon)
    (hnd : ∀ h ∈ hs, (hzKeys h).Nodup)
    (hupper : ∀ h ∈ hs, (lookupKey "upper" h).isSome)
    (hlower : ∀ h ∈ hs, (lookupKey "lower" h).isSome)
    (htop : ∀ h ∈ hs, lookupKey "top" h = none)
    (hbot : ∀ h ∈ hs, lookupKey "bottom" h = none) :
    List.Forall₂ (fun g1 g2 => ∀ k, lookupKey k g1 = lookupKey k g2)
      (standardizeHorizons (hs.map aliasKeys)) (standardizeHorizons hs) := by
  rw [standardizeHorizons, standardizeHorizons]
  exact standardizeFrom_alias 0 hs hnd hupper hlower htop hbot

/-- Witness for C10 on a one-horizon list with standard depth keys, one
numeric property and a horizon name. -/
theorem C10_witness :
    ((∀ h ∈ [[("upper", HV.num (some 0)), ("lower", HV.num (some 20)),
        ("clay", HV.num (some 25)), ("hzname", HV.str "A")]], (hzKeys h).Nodup) ∧
     (∀ h ∈ [[("upper", HV.num (some 0)), ("lower", HV.num (some 20)),
        ("clay", HV.num (some 25)), ("hzname", HV.str "A")]],
        (lookupKey "upper" h).isSome) ∧
     (∀ h ∈ [[("upper", HV.num (some 0)), ("lower", HV.num (some 20)),
        ("clay", HV.num (some 25)), ("hzname", HV.str "A")]],
        (lookupKey "lower" h).isSome) ∧
     (∀ h ∈ [[("upper", HV.num (some 0)), ("lower", HV.num (some 20)),
        ("clay", HV.num (some 25)), ("hzname", HV.str "A")]],
        lookupKey "top" h = none) ∧
     (∀ h ∈ [[("upper", HV.num (some 0)), ("lower", HV.num (some 20)),
        ("clay", HV.num (some 25)), ("hzname", HV.str "A")]],
        lookupKey "bottom" h = none)) ∧
    List.Forall₂ (fun g1 g2 => ∀ k, lookupKey k g1 = lookupKey k g2)
      (standardizeHorizons
        (([[("upper", HV.num (some 0)), ("lower", HV.num (some 20)),
          ("clay", HV.num (some 25)), ("hzname", HV.str "A")]] : List Horizon).map aliasKeys))
      (standardizeHorizons
        [[("upper", HV.num (some 0)), ("lower", HV.num (some 20)),
          ("clay", HV.num (some 25)), ("hzname", HV.str "A")]]) :=
  ⟨⟨by decide, by decide, by decide, by decide, by decide⟩,
   C10_alias_keys_equivalent _ (by decide) (by decide) (by decide) (by decide) (by decide)⟩

end Mpspline
